import Mathlib

/-!
# judo: remote deployment protocol, job orchestration and result reporting

A shallow embedding of `libjudo/host.go` and `libjudo/job.go`.

* Go `error` values are `Option String` (`none` is `nil`).
* A call either returns or panics (`Outcome`); a panic carries its value.
* The mutable `*Host` is threaded explicitly (`St.host`); pointer identity is the
  field `Host.addr`.
* The transport primitives of the repository that the two files call (`NewProc`,
  `Host.Ssh`, `Host.SshRead`, `Host.pushFiles`, `Proc.IsAlive`, `Proc.Signal`) are
  parameters (`Transport`): each answers from the calls made so far on the host,
  so any deterministic remote side is covered.  They are assumed not to write
  the fields of `Host`.
* Every outside call is recorded in `St.trace` together with the source line that
  issued it, the receiver as it was at the call, and the reply.
* The inventory is the de-duplicated set of hosts of the spec (`Inventory`).
* `NewScript` takes `os.Stat` as a parameter; `FS` is a local filesystem without
  symbolic links, with its own resolution of paths, that provides one.
* The monitor goroutine started by `StartMaster` and the `cancel` channel are not
  part of the sequential embedding.
-/

namespace Judo

/-! ## Go values -/

/-- Go `error`: `none` is `nil`, `some msg` is a non-nil error. -/
abbrev GoError := Option String

/-- How a Go call ends: it returns a value, or it panics with a value. -/
inductive Outcome (α : Type) where
  | ret (a : α)
  | panic (v : String)
  deriving DecidableEq, Repr

/-! ## Standard library `path` (lexical path functions) -/

/-- Split a path at every slash; `a//b` gives `a`, the empty element, `b`. -/
def splitSlash : List Char → List (List Char)
  | [] => [[]]
  | c :: cs =>
    if c = '/' then [] :: splitSlash cs
    else
      match splitSlash cs with
      | [] => [[c]]
      | w :: ws => (c :: w) :: ws

/-- Join path elements with single slashes. -/
def joinSlash : List (List Char) → List Char
  | [] => []
  | [e] => e
  | e :: es => e ++ '/' :: joinSlash es

/-- Element pass of `path.Clean`: drops empty and `.` elements; a `..` element
removes the element written before it, is dropped at the root of a rooted path,
and is kept when a relative path has nothing left to remove.  `acc` is the
output written so far, last element first. -/
def cleanElems (rooted : Bool) : List (List Char) → List (List Char) → List (List Char)
  | acc, [] => acc.reverse
  | acc, e :: es =>
    if e = [] ∨ e = ['.'] then cleanElems rooted acc es
    else if e = ['.', '.'] then
      match acc with
      | [] => if rooted then cleanElems rooted [] es else cleanElems rooted [e] es
      | a :: acc' =>
        if a = ['.', '.'] then cleanElems rooted (e :: a :: acc') es
        else cleanElems rooted acc' es
    else cleanElems rooted (e :: acc) es

/-- Go `path.Clean`: the shortest path equivalent to `path` by lexical processing. -/
def Clean (path : String) : String :=
  match path.data with
  | [] => "."
  | c :: cs =>
    let rooted : Bool := c = '/'
    let out := (if rooted then ['/'] else []) ++
      joinSlash (cleanElems rooted [] (splitSlash (c :: cs)))
    if out = [] then "." else String.mk out

/-- Go `path.Join`: leading empty elements are ignored, the rest is joined with
slashes and cleaned; all elements empty gives the empty string. -/
def Join (elem : List String) : String :=
  match elem.dropWhile (fun e => e = "") with
  | [] => ""
  | rest => Clean (String.mk (joinSlash (rest.map String.data)))

/-- Go `path.Base`: the last element of `path`, trailing slashes removed; `.` for
the empty path and `/` for a path of slashes only. -/
def Base (path : String) : String :=
  match path.data with
  | [] => "."
  | cs =>
    match ((splitSlash cs).filter (fun e => e ≠ [])).getLast? with
    | none => "/"
    | some e => String.mk e

/-! ## Data model (`host.go`, `job.go`) -/

/-- Handle of a child process (`*Proc`). -/
structure Proc where
  pid : Nat
  deriving DecidableEq, Repr

/-- The pointee of a `*Host`; `addr` is the pointer.  `tmpdir` is the empty
string and `master` is `none` when unset. -/
structure Host where
  addr : Nat
  Name : String
  Env : List (String × String)
  groups : List String
  tmpdir : String
  master : Option Proc
  deriving DecidableEq, Repr

/-- File or directory to be sent to the remote host for execution. -/
structure Script where
  fname : String
  dirmode : Bool
  deriving DecidableEq, Repr

/-- Ad-hoc command to be executed on the remote host. -/
structure Command where
  cmd : String
  deriving DecidableEq, Repr

/-- Modelled from the spec: the inventory collaborator (its source file is not part
of the two files embedded here) resolves the target expression into a concrete,
de-duplicated set of Host entities; `GetHosts` is that set, in the order
in which `range` happens to visit it, and `distinct` says that no `*Host` occurs
in it twice. -/
structure Inventory where
  GetHosts : List Host
  distinct : (GetHosts.map (fun host => host.addr)).Nodup

/-- A set of hosts together with the embedded `*Script` and `*Command` pointers. -/
structure Job where
  Inventory : Inventory
  Script : Option Script
  Command : Option Command

/-- The map `map[*Host]error`, as its entries in iteration order; the keys carry
the pointer `addr` and the pointee. -/
abbrev JobResult := List (Host × GoError)

/-! ## Calls to the outside, and their record -/

/-- One call that leaves the two files, with the reply it got. -/
inductive Call where
  | NewProc (args : List String) (reply : Outcome (Proc × GoError))
  | Ssh (command : String) (reply : Outcome GoError)
  | SshRead (command : String) (reply : Outcome (String × GoError))
  | pushFiles (fnameLocal fnameRemote : String) (reply : Outcome GoError)
  | IsAlive (proc : Proc) (reply : Outcome Bool)
  | Signal (proc : Proc) (reply : Outcome GoError)
  | Println (text : String)
  deriving DecidableEq, Repr

/-- A recorded call: the line of `host.go` that issued it, the host as it was when
the call was made, and the call. -/
structure Event where
  line : Nat
  host : Host
  call : Call
  deriving DecidableEq, Repr

/-- The transport primitives, as functions of the calls made so far. -/
structure Transport where
  NewProc : List Event → List String → Outcome (Proc × GoError)
  Ssh : List Event → Host → Job → String → Outcome GoError
  SshRead : List Event → Host → Job → String → Outcome (String × GoError)
  pushFiles : List Event → Host → Job → String → String → Outcome GoError
  IsAlive : List Event → Host → Proc → Outcome Bool
  Signal : List Event → Host → Proc → Outcome GoError

/-- The host being operated on and the calls made so far. -/
structure St where
  host : Host
  trace : List Event
  deriving DecidableEq, Repr

/-- Record a call issued at `line`. -/
def emit (line : Nat) (c : Call) (s : St) : St :=
  { s with trace := s.trace ++ [⟨line, s.host, c⟩] }

/-- Modelled from the spec: the helper `assert` (its source file is not part of the
two files embedded here) turns a failed cleanup into an unrecoverable fault: it
panics with the error when the error is non-nil and returns otherwise. -/
def assert (err : GoError) : Outcome Unit :=
  match err with
  | none => .ret ()
  | some e => .panic e

/-! ## `host.go` -/

/-- Constructor `NewHost(name)`; `addr` is the address of the allocated `Host`. -/
def NewHost (addr : Nat) (name : String) : Host :=
  { addr := addr, Name := name, Env := [("HOSTNAME", name)], groups := [],
    tmpdir := "", master := none }

/-- Method `Host.StartMaster` (lines 102-136), without the monitor goroutine. -/
def StartMaster (env : Transport) (s : St) : Outcome GoError × St :=
  match s.host.master with
  | some _ => (.panic "there already is a master", s)
  | none =>
    let args := ["ssh", "-MN", s.host.Name]
    let r := env.NewProc s.trace args
    let s1 := emit 106 (.NewProc args r) s
    match r with
    | .panic v => (.panic v, s1)
    | .ret (_, some e) => (.ret (some e), s1)
    | .ret (proc, none) => (.ret none, { s1 with host := { s1.host with master := some proc } })

/-- Method `Host.StopMaster` (lines 138-144). -/
def StopMaster (env : Transport) (s : St) : Outcome GoError × St :=
  match s.host.master with
  | none => (.ret none, emit 140 (.Println "there was no master to stop") s)
  | some proc =>
    let alive := env.IsAlive s.trace s.host proc
    let s1 := emit 139 (.IsAlive proc alive) s
    match alive with
    | .panic v => (.panic v, s1)
    | .ret false => (.ret none, emit 140 (.Println "there was no master to stop") s1)
    | .ret true =>
      let r := env.Signal s1.trace s1.host proc
      (r, emit 143 (.Signal proc r) s1)

/-- The closure `cleanup` (lines 50-53): clears `host.tmpdir`, then removes the
directory remotely. -/
def cleanup (env : Transport) (job : Job) (tmpdir : String) (s : St) : Outcome GoError × St :=
  let s1 : St := { s with host := { s.host with tmpdir := "" } }
  let command := "rm -r " ++ tmpdir
  let r := env.Ssh s1.trace s1.host job command
  (r, emit 52 (.Ssh command r) s1)

/-- The variable `remote_command` of `SendRemoteAndRun` (lines 68-78): the entry
point inside the temporary directory. -/
def remote_command (script : Script) (tmpdir : String) : String :=
  if !script.dirmode then Join [tmpdir, Base script.fname]
  else Join [tmpdir, Base script.fname, "script"]

/-- Lines 65-87 of `SendRemoteAndRun`: push the files, run the entry point, clean
up, and pick the value to return. -/
def pushRunCleanup (env : Transport) (job : Job) (tmpdir : String) (s : St) :
    Outcome GoError × St :=
  match job.Script with
  | none => (.panic "invalid memory address or nil pointer dereference", s)
  | some script =>
    let rp := env.pushFiles s.trace s.host job script.fname tmpdir
    let s1 := emit 66 (.pushFiles script.fname tmpdir rp) s
    match rp with
    | .panic v => (.panic v, s1)
    | .ret _ =>
      let rj := env.Ssh s1.trace s1.host job (remote_command script tmpdir)
      let s2 := emit 81 (.Ssh (remote_command script tmpdir) rj) s1
      match rj with
      | .panic v => (.panic v, s2)
      | .ret err_job =>
        match cleanup env job tmpdir s2 with
        | (.panic v, s3) => (.panic v, s3)
        | (.ret (some err), s3) => (.ret (some err), s3)
        | (.ret none, s3) => (.ret err_job, s3)

/-- The deferred function of lines 56-63, applied to the way the code after it
ended: on a panic it cleans up, asserts that the cleanup worked, and panics again
with the recovered value. -/
def recoverCleanup (env : Transport) (job : Job) (tmpdir : String)
    (r : Outcome GoError × St) : Outcome GoError × St :=
  match r with
  | (.ret err, s) => (.ret err, s)
  | (.panic v, s) =>
    match cleanup env job tmpdir s with
    | (.panic v', s1) => (.panic v', s1)
    | (.ret err, s1) =>
      match assert err with
      | .panic v' => (.panic v', s1)
      | .ret _ => (.panic v, s1)

/-- Lines 42-88 of `SendRemoteAndRun`: everything that runs under the deferred
`StopMaster`.  The error of `mkdir` is overwritten by the next statement. -/
def deploy (env : Transport) (job : Job) (s : St) : Outcome GoError × St :=
  let rmk := env.Ssh s.trace s.host job "mkdir -p $HOME/.judo"
  let s1 := emit 43 (.Ssh "mkdir -p $HOME/.judo" rmk) s
  match rmk with
  | .panic v => (.panic v, s1)
  | .ret _ =>
    let rt := env.SshRead s1.trace s1.host job "TMPDIR=$HOME/.judo mktemp -d"
    let s2 := emit 44 (.SshRead "TMPDIR=$HOME/.judo mktemp -d" rt) s1
    match rt with
    | .panic v => (.panic v, s2)
    | .ret (_, some err) => (.ret (some err), s2)
    | .ret (tmpdir, none) =>
      let s3 : St := { s2 with host := { s2.host with tmpdir := tmpdir } }
      recoverCleanup env job tmpdir (pushRunCleanup env job tmpdir s3)

/-- Method `Host.SendRemoteAndRun` (lines 34-88).  The result of `StartMaster` is
discarded; `StopMaster` is deferred, so it runs however `deploy` ends, its result
is discarded, and a panic in it replaces the pending one. -/
def SendRemoteAndRun (env : Transport) (job : Job) (s : St) : Outcome GoError × St :=
  match StartMaster env s with
  | (.panic v, s1) => (.panic v, s1)
  | (.ret _, s1) =>
    match deploy env job s1 with
    | (r, s2) =>
      match StopMaster env s2 with
      | (.panic v, s3) => (.panic v, s3)
      | (.ret _, s3) => (r, s3)

/-- Method `Host.RunRemote` (lines 90-92). -/
def RunRemote (env : Transport) (job : Job) (s : St) : Outcome GoError × St :=
  match job.Command with
  | none => (.panic "invalid memory address or nil pointer dereference", s)
  | some command =>
    let r := env.Ssh s.trace s.host job command.cmd
    (r, emit 91 (.Ssh command.cmd r) s)

/-! ## `job.go` -/

/-- Assignment `m[k] = v` on a Go map kept as a list of entries. -/
def mapSet (m : List (String × String)) (k v : String) : List (String × String) :=
  match m with
  | [] => [(k, v)]
  | (k', v') :: rest => if k' = k then (k, v) :: rest else (k', v') :: mapSet rest k v

/-- The loop of `Report` (lines 30-39): the slice `success` of names and the map
`failed` from name to error. -/
def partitionResult (result : JobResult) : List String × List (String × String) :=
  result.foldl
    (fun acc entry =>
      match entry.2 with
      | none => (acc.1 ++ [entry.1.Name], acc.2)
      | some err => (acc.1, mapSet acc.2 entry.1.Name err))
    ([], [])

/-- Method `JobResult.Report` (lines 29-51): the two counts it returns; the log lines it
prints are left out. -/
def Report (result : JobResult) : Nat × Nat :=
  ((partitionResult result).1.length, (partitionResult result).2.length)

/-- Constructor `NewCommand`. -/
def NewCommand (cmd : String) : Command := { cmd := cmd }

/-- What `os.Stat` reports about a path that exists. -/
structure FileInfo where
  IsDir : Bool
  deriving DecidableEq, Repr

/-- Constructor `NewScript` (lines 57-72) over a local filesystem given by its `os.Stat`; the
result is the pair `(script, err)`. -/
def NewScript (stat : String → Except String FileInfo) (fname : String) :
    Option Script × GoError :=
  match stat fname with
  | .error err => (none, some err)
  | .ok info =>
    if info.IsDir then
      match stat (Join [fname, "script"]) with
      | .error err => (none, some err)
      | .ok _ => (some { fname := fname, dirmode := true }, none)
    else (some { fname := fname, dirmode := false }, none)

/-- What a path of the local filesystem can name. -/
inductive Kind where
  | file
  | dir
  deriving DecidableEq, Repr

/-- A local filesystem without symbolic links.  A location is the list of names
on the way from the root to it, innermost first (the root is the empty list);
`kind` tells what is at a location, if anything, and `cwd` is the working
directory. -/
structure FS where
  kind : List (List Char) → Option Kind
  cwd : List (List Char)

/-- Following path elements from a location: every element is looked up in a
directory; an empty element and `.` stay, `..` goes to the parent (the root is
its own parent), a name goes to the entry of that name, whether or not it
exists. -/
def FS.walk (fs : FS) : List (List Char) → List (List Char) → Option (List (List Char))
  | loc, [] => some loc
  | loc, e :: es =>
    if fs.kind loc = some .dir then
      if e = [] ∨ e = ['.'] then fs.walk loc es
      else if e = ['.', '.'] then fs.walk loc.tail es
      else fs.walk (e :: loc) es
    else none

/-- The location that a path names, when there is something at it: a path that
begins with a slash is followed from the root, any other from the working
directory; the empty path names nothing. -/
def FS.locate (fs : FS) (path : String) : Option (List (List Char)) :=
  match path.data with
  | [] => none
  | c :: cs =>
    match fs.walk (if c = '/' then [] else fs.cwd) (splitSlash (c :: cs)) with
    | none => none
    | some loc => if fs.kind loc = none then none else some loc

/-- Go `os.Stat` on the filesystem `fs`: the information about what the path
names, or an error when it names nothing (the text of the error does not tell a
missing entry from an entry that is not a directory). -/
def FS.Stat (fs : FS) (path : String) : Except String FileInfo :=
  match fs.locate path with
  | none => .error ("stat " ++ path ++ ": no such file or directory")
  | some loc => .ok ⟨fs.kind loc = some .dir⟩

/-- Method `Script.IsDirMode`. -/
def Script.IsDirMode (script : Script) : Bool := script.dirmode

/-- Constructor `NewJob` (lines 78-84). -/
def NewJob (inventory : Inventory) (script : Option Script) (command : Option Command) : Job :=
  { Inventory := inventory, Command := command, Script := script }

/-- The goroutine of `Execute` (lines 108-119) for one host, up to the value it
sends on its channel.  The source writes `host.SendRemoteAndRun(job.Script)` and
`host.RunRemote(job.Command)` although both methods take the `*Job` and read
`job.Script` and `job.Command` from it; the job is what they are given here. -/
def hostTask (env : Transport) (job : Job) (host : Host) : Outcome GoError × St :=
  match job.Script with
  | some _ => SendRemoteAndRun env job ⟨host, []⟩
  | none =>
    match job.Command with
    | some _ => RunRemote env job ⟨host, []⟩
    | none => (.panic "Should not happen", ⟨host, []⟩)

/-- Collecting the channels (lines 123-126): a task that panicked takes the
process down, otherwise every host gets the value its task sent. -/
def collect : List (Outcome GoError × St) → Outcome JobResult
  | [] => .ret []
  | (.panic v, _) :: _ => .panic v
  | (.ret err, s) :: rest =>
    match collect rest with
    | .panic v => .panic v
    | .ret result => .ret ((s.host, err) :: result)

/-- Method `Job.Execute` (lines 90-128): one task per host of the inventory.  The
hosts of an inventory are distinct, so no assignment to the maps `results` and
`jobresult` overwrites another and the JobResult has the entries of the tasks.
A task reads and writes its own host only and the transport answers it from the
calls made on that host, so the tasks are run one after the other, each from an
empty record. -/
def Execute (env : Transport) (job : Job) : Outcome JobResult :=
  collect (job.Inventory.GetHosts.map (hostTask env job))

/-! ## Observations on a record -/

/-- The call returned (it did not panic). -/
def Outcome.returned {α : Type} : Outcome α → Bool
  | .ret _ => true
  | .panic _ => false

/-- The reply recorded with a call is a panic. -/
def Call.faulted : Call → Bool
  | .NewProc _ (.panic _) => true
  | .Ssh _ (.panic _) => true
  | .SshRead _ (.panic _) => true
  | .pushFiles _ _ (.panic _) => true
  | .IsAlive _ (.panic _) => true
  | .Signal _ (.panic _) => true
  | _ => false

/-- The reply recorded with a call is a returned non-nil error. -/
def Call.failed : Call → Bool
  | .NewProc _ (.ret (_, some _)) => true
  | .Ssh _ (.ret (some _)) => true
  | .SshRead _ (.ret (_, some _)) => true
  | .pushFiles _ _ (.ret (some _)) => true
  | .Signal _ (.ret (some _)) => true
  | _ => false

/-- The reply recorded with a remote command is a return without an error. -/
def Call.succeeded : Call → Bool
  | .Ssh _ (.ret none) => true
  | _ => false

/-- The removals of the temporary directory that were issued (calls of line 52). -/
def removals (tr : List Event) : List Event := tr.filter (fun e => e.line = 52)

/-- The temporary directory `tmpdir` was created: `mktemp` (line 44) returned it
without an error. -/
def created (tr : List Event) (tmpdir : String) : Prop :=
  ∃ e ∈ tr, e.line = 44 ∧
    e.call = .SshRead "TMPDIR=$HOME/.judo mktemp -d" (.ret (tmpdir, none))

instance (tr : List Event) (tmpdir : String) : Decidable (created tr tmpdir) := by
  unfold created
  infer_instance

/-- The step that creates the temporary directory (line 44) returned an error. -/
def mktempFailed (tr : List Event) : Prop :=
  ∃ e ∈ tr, e.line = 44 ∧ e.call.failed = true

/-- The entry point was executed (line 81) and returned an error. -/
def runFailed (tr : List Event) : Prop :=
  ∃ e ∈ tr, e.line = 81 ∧ e.call.failed = true

instance (tr : List Event) : Decidable (mktempFailed tr) := by
  unfold mktempFailed
  infer_instance

instance (tr : List Event) : Decidable (runFailed tr) := by
  unfold runFailed
  infer_instance

/-- The remote command of a host's task exited successfully and, for a script, the
removal of the temporary directory succeeded as well: for a script these are the
calls of lines 81 and 52, for a command the call of line 91. -/
def commandSucceeded (job : Job) (tr : List Event) : Prop :=
  match job.Script with
  | some _ =>
    (∃ e ∈ tr, e.line = 81 ∧ e.call.succeeded = true) ∧
    (∃ e ∈ tr, e.line = 52 ∧ e.call.succeeded = true)
  | none => ∃ e ∈ tr, e.line = 91 ∧ e.call.succeeded = true

instance (job : Job) (tr : List Event) : Decidable (commandSucceeded job tr) := by
  unfold commandSucceeded
  split <;> infer_instance

/-- The names of the hosts whose outcome is a non-nil error, in iteration order. -/
def failedNames (result : JobResult) : List String :=
  (result.filter (fun entry => entry.2 ≠ none)).map (fun entry => entry.1.Name)

/-- An ordinary path element: not empty, without a slash, and neither `.` nor `..`. -/
def plainElem (e : List Char) : Prop :=
  e ≠ [] ∧ '/' ∉ e ∧ e ≠ ['.'] ∧ e ≠ ['.', '.']

instance (e : List Char) : Decidable (plainElem e) := by
  unfold plainElem
  infer_instance

/-! ## The shapes a run can take -/

/-- The host with its `tmpdir` field set. -/
def Host.withTmpdir (h : Host) (t : String) : Host := { h with tmpdir := t }

/-- The calls that lines 65-87 and the deferred function of lines 56-63 can add,
and the way they end: `hT` is the host while the directory is recorded, `hE` the
host after the field was cleared. -/
def bodyShape (hT hE : Host) (job : Job) (tmpdir : String) (body : List Event)
    (r : Outcome GoError) : Prop :=
  (job.Script = none ∧ ∃ rc, body = [⟨52, hE, .Ssh ("rm -r " ++ tmpdir) rc⟩] ∧
      ∃ v, r = .panic v) ∨
  ∃ script, job.Script = some script ∧
    ((∃ v rc, body = [⟨66, hT, .pushFiles script.fname tmpdir (.panic v)⟩,
          ⟨52, hE, .Ssh ("rm -r " ++ tmpdir) rc⟩] ∧ ∃ v', r = .panic v') ∨
     (∃ ep v rc, body = [⟨66, hT, .pushFiles script.fname tmpdir (.ret ep)⟩,
          ⟨81, hT, .Ssh (remote_command script tmpdir) (.panic v)⟩,
          ⟨52, hE, .Ssh ("rm -r " ++ tmpdir) rc⟩] ∧ ∃ v', r = .panic v') ∨
     (∃ ep ej v rc, body = [⟨66, hT, .pushFiles script.fname tmpdir (.ret ep)⟩,
          ⟨81, hT, .Ssh (remote_command script tmpdir) (.ret ej)⟩,
          ⟨52, hE, .Ssh ("rm -r " ++ tmpdir) (.panic v)⟩,
          ⟨52, hE, .Ssh ("rm -r " ++ tmpdir) rc⟩] ∧ ∃ v', r = .panic v') ∨
     (∃ ep ej ec, body = [⟨66, hT, .pushFiles script.fname tmpdir (.ret ep)⟩,
          ⟨81, hT, .Ssh (remote_command script tmpdir) (.ret ej)⟩,
          ⟨52, hE, .Ssh ("rm -r " ++ tmpdir) (.ret ec)⟩] ∧
        r = .ret (match ec with | some err => some err | none => ej)))

/-- The calls that lines 42-88 can add to the record of a host `h`, the way they
end, and the host they leave. -/
def deployShape (h : Host) (job : Job) (evs : List Event) (r : Outcome GoError)
    (h' : Host) : Prop :=
  (∃ v, evs = [⟨43, h, .Ssh "mkdir -p $HOME/.judo" (.panic v)⟩] ∧ r = .panic v ∧ h' = h) ∨
  (∃ em v, evs = [⟨43, h, .Ssh "mkdir -p $HOME/.judo" (.ret em)⟩,
      ⟨44, h, .SshRead "TMPDIR=$HOME/.judo mktemp -d" (.panic v)⟩] ∧ r = .panic v ∧ h' = h) ∨
  (∃ em t err, evs = [⟨43, h, .Ssh "mkdir -p $HOME/.judo" (.ret em)⟩,
      ⟨44, h, .SshRead "TMPDIR=$HOME/.judo mktemp -d" (.ret (t, some err))⟩] ∧
      r = .ret (some err) ∧ h' = h) ∨
  (∃ em tmpdir body, evs = ⟨43, h, .Ssh "mkdir -p $HOME/.judo" (.ret em)⟩ ::
      ⟨44, h, .SshRead "TMPDIR=$HOME/.judo mktemp -d" (.ret (tmpdir, none))⟩ :: body ∧
      h' = h.withTmpdir "" ∧
      bodyShape (h.withTmpdir tmpdir) (h.withTmpdir "") job tmpdir body r)

/-! ## Sample transports, jobs and filesystem -/

/-- A transport that answers every call of a kind the same way. -/
def fixedTransport (newProc : Outcome (Proc × GoError)) (ssh : String → Outcome GoError)
    (mktemp : Outcome (String × GoError)) (push : Outcome GoError) : Transport :=
  { NewProc := fun _ _ => newProc
    Ssh := fun _ _ _ command => ssh command
    SshRead := fun _ _ _ _ => mktemp
    pushFiles := fun _ _ _ _ _ => push
    IsAlive := fun _ _ _ => .ret true
    Signal := fun _ _ _ => .ret none }

/-- A transport on which every step works; `mktemp` answers `/home/u/.judo/tmp.Ab12`. -/
def okTransport : Transport :=
  fixedTransport (.ret (⟨1⟩, none)) (fun _ => .ret none)
    (.ret ("/home/u/.judo/tmp.Ab12", none)) (.ret none)

/-- A transport on which every step works except the removal of the temporary
directory, which faults. -/
def faultyRemovalTransport : Transport :=
  fixedTransport (.ret (⟨1⟩, none))
    (fun command =>
      if command = "rm -r /home/u/.judo/tmp.Ab12" then .panic "connection lost" else .ret none)
    (.ret ("/home/u/.judo/tmp.Ab12", none)) (.ret none)

/-- A transport on which the control connection cannot be opened and every
other step works. -/
def noMasterTransport : Transport :=
  fixedTransport (.ret (⟨0⟩, some "ssh: connect to host a port 22: Connection refused"))
    (fun _ => .ret none) (.ret ("/home/u/.judo/tmp.Ab12", none)) (.ret none)

/-- A transport on which `mkdir -p $HOME/.judo` returns an error and every other
step works. -/
def noMkdirTransport : Transport :=
  fixedTransport (.ret (⟨1⟩, none))
    (fun command =>
      if command = "mkdir -p $HOME/.judo" then .ret (some "exit status 1")
      else .ret none)
    (.ret ("/home/u/.judo/tmp.Ab12", none)) (.ret none)

/-- A transport on which the entry point exits with a failure and every other
step works. -/
def failingRunTransport : Transport :=
  fixedTransport (.ret (⟨1⟩, none))
    (fun command =>
      if command = "/home/u/.judo/tmp.Ab12/hello.sh" then .ret (some "exit status 2")
      else .ret none)
    (.ret ("/home/u/.judo/tmp.Ab12", none)) (.ret none)

/-- The inventory without hosts. -/
def noHosts : Inventory := ⟨[], by decide⟩

/-- The inventory of the single host `a`. -/
def hostA : Inventory := ⟨[NewHost 1 "a"], by decide⟩

/-- The inventory of the hosts `a` and `b`. -/
def hostsAB : Inventory := ⟨[NewHost 1 "a", NewHost 2 "b"], by decide⟩

/-- The job of running the single file `examples/hello.sh`. -/
def helloJob : Job := NewJob noHosts (some ⟨"examples/hello.sh", false⟩) none

/-- The job of running the directory `examples/bootstrap`, which has an entry
point `script`. -/
def bootstrapJob : Job := NewJob noHosts (some ⟨"examples/bootstrap", true⟩) none

/-- The job of running the command `true` on the hosts `a` and `b`. -/
def trueJob : Job := NewJob hostsAB none (some (NewCommand "true"))

/-- The JobResult in which the hosts `a` and `b` both have nil. -/
def bothNil : JobResult := [(NewHost 1 "a", none), (NewHost 2 "b", none)]

/-- The filesystem with the given directories and files, each written as the
names from the root, and the given working directory. -/
def FS.ofPaths (dirs files : List (List String)) (cwd : List String) : FS :=
  { kind := fun loc =>
      if loc.reverse.map String.mk ∈ dirs then some .dir
      else if loc.reverse.map String.mk ∈ files then some .file
      else none
    cwd := (cwd.map String.data).reverse }

/-- A local filesystem like the one of the tests, seen from `/home/me/judo`: the
file `examples/hello.sh`, the directory `examples/bootstrap` with the file
`script` in it, and the directory `examples/empty` with nothing in it. -/
def exampleFS : FS :=
  FS.ofPaths
    [[], ["home"], ["home", "me"], ["home", "me", "judo"], ["home", "me", "judo", "examples"],
      ["home", "me", "judo", "examples", "bootstrap"],
      ["home", "me", "judo", "examples", "empty"]]
    [["home", "me", "judo", "examples", "hello.sh"],
      ["home", "me", "judo", "examples", "bootstrap", "script"]]
    ["home", "me", "judo"]

/-- A local filesystem, seen from `/home/me/judo`, in which `examples/bootstrap` is
a directory whose entry `script` is itself a directory. -/
def scriptDirFS : FS :=
  FS.ofPaths
    [[], ["home"], ["home", "me"], ["home", "me", "judo"], ["home", "me", "judo", "examples"],
      ["home", "me", "judo", "examples", "bootstrap"],
      ["home", "me", "judo", "examples", "bootstrap", "script"]]
    []
    ["home", "me", "judo"]

/-- A local filesystem, seen from `/home/me/judo/doc`, in which the parent
directory `/home/me/judo` has the file `script`. -/
def parentFS : FS :=
  FS.ofPaths
    [[], ["home"], ["home", "me"], ["home", "me", "judo"], ["home", "me", "judo", "doc"]]
    [["home", "me", "judo", "script"]]
    ["home", "me", "judo", "doc"]

/-- The job of running the directory `..`, which has an entry point `script`. -/
def parentJob : Job := NewJob noHosts (some ⟨"..", true⟩) none

/-- A transport on which every step works and `mktemp` answers the empty line. -/
def emptyLineTransport : Transport :=
  fixedTransport (.ret (⟨1⟩, none)) (fun _ => .ret none) (.ret ("", none)) (.ret none)

/-! ## Second definition of a host's outcome, after the spec -/

/-- Steps 2 to 7 of the remote deployment protocol of the spec, asked of the
transport on a host `host` after the calls `pre`: the workspace directory is
ensured, the temporary directory is created, the script is transferred, the
entry point (the uploaded file, or `script` inside the uploaded directory) is
executed and the temporary directory is removed.  The value says whether the
entry point exited successfully and the removal succeeded; every step is asked
after the steps before it, on the host as the protocol has it at that step. -/
def stepsSucceed (env : Transport) (job : Job) (script : Script) (host : Host)
    (pre : List Event) : Bool :=
  match env.Ssh pre host job "mkdir -p $HOME/.judo" with
  | .panic _ => false
  | .ret ensured =>
    let pre2 := pre ++ [⟨43, host, .Ssh "mkdir -p $HOME/.judo" (.ret ensured)⟩]
    match env.SshRead pre2 host job "TMPDIR=$HOME/.judo mktemp -d" with
    | .ret (tmpdir, none) =>
      let pre3 := pre2 ++
        [⟨44, host, .SshRead "TMPDIR=$HOME/.judo mktemp -d" (.ret (tmpdir, none))⟩]
      let working : Host := { host with tmpdir := tmpdir }
      match env.pushFiles pre3 working job script.fname tmpdir with
      | .ret sent =>
        let pre4 := pre3 ++ [⟨66, working, .pushFiles script.fname tmpdir (.ret sent)⟩]
        let entry :=
          if script.dirmode then Join [tmpdir, Base script.fname, "script"]
          else Join [tmpdir, Base script.fname]
        match env.Ssh pre4 working job entry with
        | .ret none =>
          let pre5 := pre4 ++ [⟨81, working, .Ssh entry (.ret none)⟩]
          match env.Ssh pre5 { host with tmpdir := "" } job ("rm -r " ++ tmpdir) with
          | .ret none => true
          | _ => false
        | _ => false
      | .panic _ => false
    | _ => false

/-- The remote deployment protocol of the spec, asked of the transport on a host
with no control connection yet: the control connection is started (step 1; the
host has it from then on if it could be opened) and steps 2 to 7 follow. -/
def deploymentSucceeds (env : Transport) (job : Job) (script : Script) (host : Host) : Bool :=
  match env.NewProc [] ["ssh", "-MN", host.Name] with
  | .panic _ => false
  | .ret (proc, none) =>
    stepsSucceed env job script { host with master := some proc }
      [⟨106, host, .NewProc ["ssh", "-MN", host.Name] (.ret (proc, none))⟩]
  | .ret (proc, some err) =>
    stepsSucceed env job script host
      [⟨106, host, .NewProc ["ssh", "-MN", host.Name] (.ret (proc, some err))⟩]

/-- The remote command of the job exits successfully on the host and, for a
script, the removal of the temporary directory succeeds too, according to the
transport: for a script the deployment protocol succeeds, for a command the
transport's reply to the command is a return without an error. -/
def remoteSucceeds (env : Transport) (job : Job) (host : Host) : Bool :=
  match job.Script with
  | some script => deploymentSucceeds env job script host
  | none =>
    match job.Command with
    | some command => decide (env.Ssh [] host job command.cmd = .ret none)
    | none => false

/-! ## The shape of a run -/

theorem recoverCleanup_panic (env : Transport) (job : Job) (tmpdir v : String) (s : St) :
    ∃ rc v', recoverCleanup env job tmpdir (.panic v, s) =
      (.panic v', ⟨s.host.withTmpdir "",
        s.trace ++ [⟨52, s.host.withTmpdir "", .Ssh ("rm -r " ++ tmpdir) rc⟩]⟩) := by
  simp only [recoverCleanup, cleanup, emit, Host.withTmpdir]
  generalize env.Ssh _ _ _ _ = rc
  rcases rc with (_ | e) | v'
  · exact ⟨_, v, rfl⟩
  · exact ⟨_, e, rfl⟩
  · exact ⟨_, v', rfl⟩

theorem recover_body_shape (env : Transport) (job : Job) (tmpdir : String) (s : St)
    (r : Outcome GoError) (s' : St)
    (h : recoverCleanup env job tmpdir (pushRunCleanup env job tmpdir s) = (r, s')) :
    s'.host = s.host.withTmpdir "" ∧
    ∃ body, s'.trace = s.trace ++ body ∧
      bodyShape s.host (s.host.withTmpdir "") job tmpdir body r := by
  unfold pushRunCleanup at h
  cases hs : job.Script with
  | none =>
    simp only [hs] at h
    obtain ⟨rc, v', hrc⟩ := recoverCleanup_panic env job tmpdir
      "invalid memory address or nil pointer dereference" s
    rw [hrc] at h
    cases h
    exact ⟨rfl, _, rfl, Or.inl ⟨hs, rc, rfl, v', rfl⟩⟩
  | some script =>
    simp only [hs] at h
    generalize hrp : env.pushFiles s.trace s.host job script.fname tmpdir = rp at h
    rcases rp with ep | v
    · simp only [emit] at h
      generalize hrj : env.Ssh _ _ job (remote_command script tmpdir) = rj at h
      rcases rj with ej | v
      · simp only [cleanup, emit] at h
        generalize hrc : env.Ssh _ _ job ("rm -r " ++ tmpdir) = rc at h
        rcases rc with (_ | ec) | v
        · simp only [recoverCleanup] at h
          cases h
          refine ⟨rfl, _, ?_, Or.inr ⟨script, hs, Or.inr (Or.inr (Or.inr ⟨ep, ej, none, rfl, rfl⟩))⟩⟩
          simp [Host.withTmpdir]
        · simp only [recoverCleanup] at h
          cases h
          refine ⟨rfl, _, ?_, Or.inr ⟨script, hs,
            Or.inr (Or.inr (Or.inr ⟨ep, ej, some ec, rfl, rfl⟩))⟩⟩
          simp [Host.withTmpdir]
        · simp only [] at h
          obtain ⟨rc, v', hrc'⟩ := recoverCleanup_panic env job tmpdir v
            ⟨s.host.withTmpdir "", s.trace ++ [⟨66, s.host, .pushFiles script.fname tmpdir (.ret ep)⟩] ++
              [⟨81, s.host, .Ssh (remote_command script tmpdir) (.ret ej)⟩] ++
              [⟨52, s.host.withTmpdir "", .Ssh ("rm -r " ++ tmpdir) (.panic v)⟩]⟩
          have h3 := hrc'.symm.trans h
          cases h3
          refine ⟨rfl, _, ?_, Or.inr ⟨script, hs,
            Or.inr (Or.inr (Or.inl ⟨ep, ej, v, rc, rfl, v', rfl⟩))⟩⟩
          simp [Host.withTmpdir]
      · simp only [] at h
        obtain ⟨rc, v', hrc'⟩ := recoverCleanup_panic env job tmpdir v
          ⟨s.host, s.trace ++ [⟨66, s.host, .pushFiles script.fname tmpdir (.ret ep)⟩] ++
            [⟨81, s.host, .Ssh (remote_command script tmpdir) (.panic v)⟩]⟩
        have h3 := hrc'.symm.trans h
        cases h3
        refine ⟨rfl, _, ?_, Or.inr ⟨script, hs, Or.inr (Or.inl ⟨ep, v, rc, rfl, v', rfl⟩)⟩⟩
        simp [Host.withTmpdir]
    · simp only [emit] at h
      obtain ⟨rc, v', hrc'⟩ := recoverCleanup_panic env job tmpdir v
        ⟨s.host, s.trace ++ [⟨66, s.host, .pushFiles script.fname tmpdir (.panic v)⟩]⟩
      have h3 := hrc'.symm.trans h
      cases h3
      refine ⟨rfl, _, ?_, Or.inr ⟨script, hs, Or.inl ⟨v, rc, rfl, v', rfl⟩⟩⟩
      simp [Host.withTmpdir]

theorem deploy_shape (env : Transport) (job : Job) (s : St) (r : Outcome GoError) (s' : St)
    (h : deploy env job s = (r, s')) :
    ∃ evs, s'.trace = s.trace ++ evs ∧ deployShape s.host job evs r s'.host := by
  unfold deploy at h
  simp only [emit] at h
  generalize env.Ssh s.trace s.host job "mkdir -p $HOME/.judo" = rmk at h
  rcases rmk with em | v
  · simp only [] at h
    generalize env.SshRead _ _ job "TMPDIR=$HOME/.judo mktemp -d" = rt at h
    rcases rt with ⟨t, _ | err⟩ | v
    · simp only [] at h
      obtain ⟨hh, body, htr, hb⟩ := recover_body_shape env job t _ r s' h
      refine ⟨_ :: _ :: body, ?_, Or.inr (Or.inr (Or.inr ⟨em, t, body, rfl, hh, hb⟩))⟩
      simp [htr]
    · cases h
      exact ⟨_, by simp, Or.inr (Or.inr (Or.inl ⟨em, t, err, rfl, rfl, rfl⟩))⟩
    · cases h
      exact ⟨_, by simp, Or.inr (Or.inl ⟨em, v, rfl, rfl, rfl⟩)⟩
  · cases h
    exact ⟨_, rfl, Or.inl ⟨v, rfl, rfl, rfl⟩⟩

theorem StopMaster_shape (env : Transport) (s : St) (r : Outcome GoError) (s' : St)
    (h : StopMaster env s = (r, s')) :
    s'.host = s.host ∧ ∃ stop, s'.trace = s.trace ++ stop ∧
      (∀ e ∈ stop, (e.line = 139 ∨ e.line = 140 ∨ e.line = 143) ∧ e.host = s.host) ∧
      ((∀ e ∈ stop, e.call.faulted = false) → ∃ err, r = .ret err) ∧
      (s.host.master = none → r = .ret none ∧
        stop = [⟨140, s.host, .Println "there was no master to stop"⟩]) := by
  unfold StopMaster at h
  cases hm : s.host.master with
  | none =>
    simp only [hm, emit] at h
    cases h
    exact ⟨rfl, _, rfl, by simp, fun _ => ⟨_, rfl⟩, fun _ => ⟨rfl, rfl⟩⟩
  | some p =>
    simp only [hm, emit] at h
    generalize env.IsAlive s.trace s.host p = alive at h
    rcases alive with (_ | _) | v
    · cases h
      exact ⟨rfl, _, List.append_assoc _ _ _, by simp, fun _ => ⟨_, rfl⟩, by simp⟩
    · simp only [] at h
      generalize env.Signal _ _ p = sig at h
      cases h
      refine ⟨rfl, _, List.append_assoc _ _ _, by simp, ?_, by simp⟩
      rcases r with e | v
      · exact fun _ => ⟨_, rfl⟩
      · intro hf
        have := hf _ (List.mem_append_right _ (List.mem_singleton.2 rfl))
        simp [Call.faulted] at this
    · cases h
      refine ⟨rfl, _, rfl, by simp, ?_, by simp⟩
      intro hf
      have := hf _ (List.mem_singleton.2 rfl)
      simp [Call.faulted] at this

/-- Lines 42-88 followed by the deferred `StopMaster`, from a record `tr`. -/
theorem deploy_then_stop (env : Transport) (job : Job) (h1 : Host) (tr : List Event)
    (r : Outcome GoError) (s' : St)
    (h : (match deploy env job ⟨h1, tr⟩ with
      | (r, s2) =>
        match StopMaster env s2 with
        | (.panic v, s3) => (.panic v, s3)
        | (.ret _, s3) => (r, s3)) = (r, s')) :
    ∃ evs rd stop, s'.trace = tr ++ (evs ++ stop) ∧
      deployShape h1 job evs rd s'.host ∧
      (∀ ev ∈ stop, (ev.line = 139 ∨ ev.line = 140 ∨ ev.line = 143) ∧ ev.host = s'.host) ∧
      (r = rd ∨ ∃ v, r = .panic v) ∧
      ((∀ ev ∈ stop, ev.call.faulted = false) → r = rd) ∧
      (s'.host.master = none → r = rd ∧
        stop = [⟨140, s'.host, .Println "there was no master to stop"⟩]) := by
  cases hd : deploy env job ⟨h1, tr⟩ with
  | mk rd s2 =>
    simp only [hd] at h
    obtain ⟨evs, htr, hsh⟩ := deploy_shape env job _ rd s2 hd
    cases ht : StopMaster env s2 with
    | mk rt s3 =>
      simp only [ht] at h
      obtain ⟨hh, stop, htr', hlines, hnf, hnone⟩ := StopMaster_shape env s2 rt s3 ht
      rcases rt with e | v
      · cases h
        refine ⟨evs, _, stop, ?_, hh ▸ hsh, ?_, Or.inl rfl, fun _ => rfl, ?_⟩
        · simp [htr', htr]
        · intro ev hev
          rw [hh]
          exact hlines ev hev
        · intro hm
          rw [hh] at hm ⊢
          exact ⟨rfl, (hnone hm).2⟩
      · cases h
        refine ⟨evs, rd, stop, ?_, hh ▸ hsh, ?_, Or.inr ⟨v, rfl⟩, ?_, ?_⟩
        · simp [htr', htr]
        · intro ev hev
          rw [hh]
          exact hlines ev hev
        · intro hf
          obtain ⟨err, herr⟩ := hnf hf
          cases herr
        · intro hm
          rw [hh] at hm
          have := (hnone hm).1
          cases this

/-- The record of `SendRemoteAndRun` on a host with an empty record: either
`StartMaster` panics, or line 106 is followed by the calls of lines 42-88 and
then by those of the deferred `StopMaster`. -/
theorem SendRemoteAndRun_shape (env : Transport) (job : Job) (host : Host)
    (r : Outcome GoError) (s' : St) (h : SendRemoteAndRun env job ⟨host, []⟩ = (r, s')) :
    ((∃ p, host.master = some p) ∧ s' = ⟨host, []⟩ ∧ r = .panic "there already is a master") ∨
    (host.master = none ∧ ∃ v,
      s' = ⟨host, [⟨106, host, .NewProc ["ssh", "-MN", host.Name] (.panic v)⟩]⟩ ∧
      r = .panic v) ∨
    (host.master = none ∧ ∃ p e h1 evs rd stop,
      (e ≠ none ∧ h1 = host ∨ e = none ∧ h1 = { host with master := some p }) ∧
      s'.trace = ⟨106, host, .NewProc ["ssh", "-MN", host.Name] (.ret (p, e))⟩ :: (evs ++ stop) ∧
      deployShape h1 job evs rd s'.host ∧
      (∀ ev ∈ stop, (ev.line = 139 ∨ ev.line = 140 ∨ ev.line = 143) ∧ ev.host = s'.host) ∧
      (r = rd ∨ ∃ v, r = .panic v) ∧
      ((∀ ev ∈ stop, ev.call.faulted = false) → r = rd) ∧
      (s'.host.master = none → r = rd ∧
        stop = [⟨140, s'.host, .Println "there was no master to stop"⟩])) := by
  unfold SendRemoteAndRun StartMaster at h
  cases hm : host.master with
  | some p =>
    simp only [hm] at h
    cases h
    exact Or.inl ⟨⟨p, rfl⟩, rfl, rfl⟩
  | none =>
    simp only [hm, emit] at h
    generalize env.NewProc [] ["ssh", "-MN", host.Name] = np at h
    rcases np with ⟨p, _ | e⟩ | v
    · simp only [] at h
      obtain ⟨evs, rd, stop, h1, h2, h3, h4, h5, h6⟩ := deploy_then_stop env job _ _ r s' h
      exact Or.inr (Or.inr ⟨rfl, p, none, _, evs, rd, stop, Or.inr ⟨rfl, rfl⟩,
        by simpa using h1, h2, h3, h4, h5, h6⟩)
    · simp only [] at h
      obtain ⟨evs, rd, stop, h1, h2, h3, h4, h5, h6⟩ := deploy_then_stop env job _ _ r s' h
      exact Or.inr (Or.inr ⟨rfl, p, some e, _, evs, rd, stop, Or.inl ⟨by simp, rfl⟩,
        by simpa using h1, h2, h3, h4, h5, h6⟩)
    · simp only [] at h
      cases h
      exact Or.inr (Or.inl ⟨rfl, v, rfl, rfl⟩)

theorem stop_filter (stop : List Event) (h' : Host) (n : Nat)
    (hn : n ≠ 139 ∧ n ≠ 140 ∧ n ≠ 143)
    (h : ∀ ev ∈ stop, (ev.line = 139 ∨ ev.line = 140 ∨ ev.line = 143) ∧ ev.host = h') :
    stop.filter (fun e => e.line = n) = [] := by
  rw [List.filter_eq_nil_iff]
  intro ev hev
  have := (h ev hev).1
  simp only [decide_eq_true_eq]
  omega

theorem bodyShape_hosts (hT hE : Host) (job : Job) (tmpdir : String) (body : List Event)
    (r : Outcome GoError) (hb : bodyShape hT hE job tmpdir body r) :
    ∀ ev ∈ body, ((ev.line = 66 ∨ ev.line = 81) ∧ ev.host = hT) ∨ (ev.line = 52 ∧ ev.host = hE) := by
  intro ev hev
  rcases hb with ⟨hs, rc, rfl, _⟩ | ⟨script, hs, ⟨v, rc, rfl, _⟩ |
    ⟨ep, v, rc, rfl, _⟩ | ⟨ep, ej, v, rc, rfl, _⟩ | ⟨ep, ej, ec, rfl, _⟩⟩ <;>
  · simp only [List.mem_cons, List.mem_singleton, List.not_mem_nil, or_false] at hev
    rcases hev with rfl | rfl | rfl | rfl <;> simp

theorem deployShape_after (h : Host) (job : Job) (evs : List Event) (r : Outcome GoError)
    (h' : Host) (hsh : deployShape h job evs r h') :
    h'.master = h.master ∧ h'.addr = h.addr ∧ h'.Name = h.Name ∧
    ∀ ev ∈ evs, ev.line = 43 ∨ ev.line = 44 ∨ ev.line = 52 ∨ ev.line = 66 ∨ ev.line = 81 := by
  rcases hsh with ⟨v, rfl, _, rfl⟩ | ⟨em, v, rfl, _, rfl⟩ | ⟨em, t, err, rfl, _, rfl⟩ |
    ⟨em, t, body, rfl, rfl, hb⟩
  · simp
  · simp
  · simp
  · refine ⟨rfl, rfl, rfl, ?_⟩
    intro ev hev
    simp only [List.mem_cons] at hev
    rcases hev with rfl | rfl | hev
    · simp
    · simp
    · rcases bodyShape_hosts _ _ job t body r hb ev hev with ⟨hl, _⟩ | ⟨hl, _⟩ <;> omega

/-! ## Lexical path functions on ordinary paths -/

theorem splitSlash_ne_nil (cs : List Char) : splitSlash cs ≠ [] := by
  cases cs with
  | nil => simp [splitSlash]
  | cons c cs =>
    unfold splitSlash
    split
    · simp
    · split <;> simp

theorem splitSlash_noSlash (cs : List Char) : ∀ e ∈ splitSlash cs, '/' ∉ e := by
  induction cs with
  | nil => simp [splitSlash]
  | cons c cs ih =>
    unfold splitSlash
    split
    · intro e he
      rcases List.mem_cons.1 he with rfl | he
      · simp
      · exact ih e he
    · rename_i hc
      split
      · intro e he
        simp at he
        subst he
        simpa using fun h => hc h.symm
      · rename_i w ws hw
        intro e he
        rcases List.mem_cons.1 he with rfl | he
        · have := ih w (by rw [hw]; simp)
          simp only [List.mem_cons, not_or]
          exact ⟨fun h => hc h.symm, this⟩
        · exact ih e (by rw [hw]; simp [he])

theorem splitSlash_append (a b : List Char) (ha : '/' ∉ a) :
    splitSlash (a ++ '/' :: b) = a :: splitSlash b := by
  induction a with
  | nil => simp [splitSlash]
  | cons c a ih =>
    have hc : c ≠ '/' := fun h => ha (by simp [h])
    have ha' : '/' ∉ a := fun h => ha (by simp [h])
    rw [List.cons_append, splitSlash, if_neg hc, ih ha']

theorem splitSlash_single (a : List Char) (ha : '/' ∉ a) : splitSlash a = [a] := by
  induction a with
  | nil => simp [splitSlash]
  | cons c a ih =>
    have hc : c ≠ '/' := fun h => ha (by simp [h])
    have ha' : '/' ∉ a := fun h => ha (by simp [h])
    rw [splitSlash, if_neg hc, ih ha']

theorem joinSlash_cons (e : List Char) (es : List (List Char)) (h : es ≠ []) :
    joinSlash (e :: es) = e ++ '/' :: joinSlash es := by
  cases es with
  | nil => exact absurd rfl h
  | cons a as => rfl

theorem joinSlash_append_single (es : List (List Char)) (n : List Char) (h : es ≠ []) :
    joinSlash (es ++ [n]) = joinSlash es ++ '/' :: n := by
  induction es with
  | nil => exact absurd rfl h
  | cons e es ih =>
    cases es with
    | nil => rfl
    | cons a as =>
      have := ih (by simp)
      show e ++ '/' :: joinSlash ((a :: as) ++ [n]) = (e ++ '/' :: joinSlash (a :: as)) ++ '/' :: n
      rw [this]
      simp

theorem splitSlash_joinSlash (es : List (List Char)) (h : es ≠ [])
    (hs : ∀ e ∈ es, '/' ∉ e) : splitSlash (joinSlash es) = es := by
  induction es with
  | nil => exact absurd rfl h
  | cons e es ih =>
    cases es with
    | nil => exact splitSlash_single e (hs e (by simp))
    | cons a as =>
      rw [joinSlash_cons _ _ (by simp), splitSlash_append _ _ (hs e (by simp)),
        ih (by simp) (fun x hx => hs x (by simp [hx]))]

theorem cleanElems_plain (acc es : List (List Char)) (h : ∀ e ∈ es, plainElem e) :
    cleanElems true acc es = acc.reverse ++ es := by
  induction es generalizing acc with
  | nil => simp [cleanElems]
  | cons e es ih =>
    obtain ⟨h1, _, h3, h4⟩ := h e (by simp)
    simp only [cleanElems, h1, h3, h4, or_self, if_false]
    rw [ih _ (fun x hx => h x (by simp [hx]))]
    simp

theorem cleanElems_rooted_plain (acc es : List (List Char)) (hacc : ∀ e ∈ acc, plainElem e)
    (hs : ∀ e ∈ es, '/' ∉ e) : ∀ e ∈ cleanElems true acc es, plainElem e := by
  induction es generalizing acc with
  | nil => simpa [cleanElems] using hacc
  | cons e es ih =>
    have hs' : ∀ x ∈ es, '/' ∉ x := fun x hx => hs x (by simp [hx])
    simp only [cleanElems]
    split
    · exact ih acc hacc hs'
    · rename_i h1
      split
      · cases acc with
        | nil => simpa using ih [] (by simp) hs'
        | cons a acc' =>
          have ha := hacc a (by simp)
          simp only [ha.2.2.2, if_false]
          exact ih acc' (fun x hx => hacc x (by simp [hx])) hs'
      · rename_i h2
        refine ih (e :: acc) ?_ hs'
        intro x hx
        rcases List.mem_cons.1 hx with rfl | hx
        · exact ⟨fun h => h1 (Or.inl h), hs _ (by simp), fun h => h1 (Or.inr h), h2⟩
        · exact hacc x hx

theorem cleanElems_empty_elem (rooted : Bool) (acc es : List (List Char)) :
    cleanElems rooted acc ([] :: es) = cleanElems rooted acc es := by
  simp [cleanElems]

theorem Clean_rooted (rest : List Char) :
    Clean (String.mk ('/' :: rest)) =
      String.mk ('/' :: joinSlash (cleanElems true [] (splitSlash rest))) := by
  simp [Clean, splitSlash, cleanElems_empty_elem]

theorem Clean_rooted_plain (es : List (List Char)) (h : ∀ e ∈ es, plainElem e) :
    Clean (String.mk ('/' :: joinSlash es)) = String.mk ('/' :: joinSlash es) := by
  rw [Clean_rooted]
  cases es with
  | nil => rfl
  | cons e es' =>
    have hs : ∀ x ∈ e :: es', '/' ∉ x := fun x hx => (h x hx).2.1
    rw [splitSlash_joinSlash _ (by simp) hs, cleanElems_plain [] _ h]
    simp

theorem clean_absolute_form (tmp : String) (ht : Clean tmp = tmp)
    (hroot : tmp.data.head? = some '/') (hne : tmp ≠ "/") :
    ∃ es, es ≠ [] ∧ (∀ e ∈ es, plainElem e) ∧ tmp.data = '/' :: joinSlash es := by
  obtain ⟨data⟩ := tmp
  cases data with
  | nil => simp at hroot
  | cons c rest =>
    simp only [List.head?_cons, Option.some.injEq] at hroot
    subst hroot
    rw [Clean_rooted] at ht
    have ht' : '/' :: joinSlash (cleanElems true [] (splitSlash rest)) = '/' :: rest :=
      congrArg String.data ht
    refine ⟨cleanElems true [] (splitSlash rest), ?_, ?_, ?_⟩
    · intro hnil
      rw [hnil] at ht'
      apply hne
      rw [← ht']
      rfl
    · exact cleanElems_rooted_plain [] _ (by simp) (splitSlash_noSlash rest)
    · exact ht'.symm

theorem Join_nonempty_head (first : String) (rest : List String) (h : first ≠ "") :
    Join (first :: rest) =
      Clean (String.mk (joinSlash ((first :: rest).map String.data))) := by
  simp [Join, List.dropWhile, h]

/-- Joining an ordinary element onto a clean absolute path other than the root
writes a slash and the element after it. -/
theorem Join_two_literal (tmp name : String) (ht : Clean tmp = tmp)
    (hroot : tmp.data.head? = some '/') (hne : tmp ≠ "/") (hn : plainElem name.data) :
    Join [tmp, name] = tmp ++ "/" ++ name := by
  obtain ⟨es, hes, hpl, hdata⟩ := clean_absolute_form tmp ht hroot hne
  have h0 : tmp ≠ "" := by
    intro h
    rw [h] at hroot
    simp at hroot
  rw [Join_nonempty_head tmp _ h0]
  have h1 : joinSlash ([tmp, name].map String.data) = '/' :: joinSlash (es ++ [name.data]) := by
    simp [joinSlash, hdata, joinSlash_append_single es _ hes]
  rw [h1, Clean_rooted_plain]
  · apply String.ext
    simp [String.data_append, hdata, joinSlash_append_single es _ hes]
  · intro e he
    rcases List.mem_append.1 he with he | he
    · exact hpl e he
    · simp at he
      subst he
      exact hn

/-- Joining two ordinary elements onto a clean absolute path other than the root. -/
theorem Join_three_literal (tmp a b : String) (ht : Clean tmp = tmp)
    (hroot : tmp.data.head? = some '/') (hne : tmp ≠ "/") (ha : plainElem a.data)
    (hb : plainElem b.data) :
    Join [tmp, a, b] = tmp ++ "/" ++ a ++ "/" ++ b := by
  obtain ⟨es, hes, hpl, hdata⟩ := clean_absolute_form tmp ht hroot hne
  have h0 : tmp ≠ "" := by
    intro h
    rw [h] at hroot
    simp at hroot
  rw [Join_nonempty_head tmp _ h0]
  have h2 : joinSlash ((es ++ [a.data]) ++ [b.data]) =
      joinSlash es ++ '/' :: (a.data ++ '/' :: b.data) := by
    rw [joinSlash_append_single (es ++ [a.data]) _ (by simp),
      joinSlash_append_single es _ hes]
    simp
  have h1 : joinSlash ([tmp, a, b].map String.data) =
      '/' :: joinSlash ((es ++ [a.data]) ++ [b.data]) := by
    rw [h2]
    simp [joinSlash, hdata]
  rw [h1, Clean_rooted_plain]
  · apply String.ext
    rw [h2]
    simp [String.data_append, hdata]
  · intro e he
    simp only [List.mem_append, List.mem_singleton] at he
    rcases he with (he | rfl) | rfl
    · exact hpl e he
    · exact ha
    · exact hb

/-- The last element that `Base` returns is an ordinary element unless it is one
of `.`, `..` and `/`. -/
theorem Base_plain (path : String) (h1 : Base path ≠ ".") (h2 : Base path ≠ "..")
    (h3 : Base path ≠ "/") : plainElem (Base path).data := by
  unfold Base at h1 h2 h3 ⊢
  cases hd : path.data with
  | nil => simp [hd] at h1
  | cons c cs =>
    simp only [hd] at h1 h2 h3 ⊢
    cases hl : ((splitSlash (c :: cs)).filter (fun e => e ≠ [])).getLast? with
    | none =>
      simp only [hl] at h3
      exact absurd rfl h3
    | some e =>
      simp only [hl] at h1 h2 ⊢
      have hmem := List.mem_of_getLast?_eq_some hl
      rw [List.mem_filter] at hmem
      refine ⟨by simpa using hmem.2, splitSlash_noSlash _ e hmem.1, ?_, ?_⟩
      · intro he
        apply h1
        rw [he]
      · intro he
        apply h2
        rw [he]

theorem remote_command_eq (script : Script) (tmpdir : String) :
    remote_command script tmpdir =
      if script.dirmode then Join [tmpdir, Base script.fname, "script"]
      else Join [tmpdir, Base script.fname] := by
  unfold remote_command
  cases script.dirmode <;> rfl

/-! ## Lexical cleaning against the filesystem -/

theorem walk_append (fs : FS) (xs ys loc : List (List Char)) :
    fs.walk loc (xs ++ ys) = (fs.walk loc xs).bind (fun l => fs.walk l ys) := by
  induction xs generalizing loc with
  | nil => simp [FS.walk]
  | cons e es ih =>
    simp only [List.cons_append, FS.walk]
    split
    · split
      · exact ih loc
      · split
        · exact ih loc.tail
        · exact ih (e :: loc)
    · rfl

theorem walk_cons_dir (fs : FS) (loc L : List (List Char)) (e : List Char)
    (es : List (List Char)) (h : fs.walk loc (e :: es) = some L) : fs.kind loc = some .dir := by
  simp only [FS.walk] at h
  by_contra hk
  simp [hk] at h

theorem splitSlash_append_slash (a b : List Char) :
    splitSlash (a ++ '/' :: b) = splitSlash a ++ splitSlash b := by
  induction a with
  | nil => simp [splitSlash]
  | cons c a ih =>
    by_cases hc : c = '/'
    · simp [splitSlash, hc, ih]
    · rw [List.cons_append, splitSlash, if_neg hc, ih, splitSlash, if_neg hc]
      cases hs : splitSlash a with
      | nil => exact absurd hs (splitSlash_ne_nil a)
      | cons w ws => rfl

/-- Cleaning keeps the place a path leads to: if following `es` from `loc` ends
at `L`, and the elements written so far lead from `start` to `loc`, then the
cleaned elements lead from `start` to `L`. -/
theorem walk_cleanElems (fs : FS) (rooted : Bool) (start : List (List Char))
    (hstart : rooted = true → start = []) (es acc loc L : List (List Char))
    (hacc : ∀ a ∈ acc, a ≠ [] ∧ a ≠ ['.'])
    (hw : fs.walk start acc.reverse = some loc) (h : fs.walk loc es = some L) :
    fs.walk start (cleanElems rooted acc es) = some L := by
  induction es generalizing acc loc with
  | nil =>
    simp only [FS.walk, Option.some.injEq] at h
    subst h
    simpa [cleanElems] using hw
  | cons e es ih =>
    have hd := walk_cons_dir fs loc L e es h
    simp only [FS.walk, hd, if_true] at h
    simp only [cleanElems]
    by_cases h1 : e = [] ∨ e = ['.']
    · simp only [h1, if_true] at h ⊢
      exact ih acc loc hacc hw h
    · simp only [h1, if_false] at h ⊢
      by_cases h2 : e = ['.', '.']
      · simp only [h2, if_true] at h ⊢
        cases acc with
        | nil =>
          simp only [List.reverse_nil, FS.walk, Option.some.injEq] at hw
          subst hw
          cases rooted with
          | true =>
            simp only [if_true]
            have hs := hstart rfl
            subst hs
            exact ih [] [] (by simp) (by simp [FS.walk]) h
          | false =>
            simp only [Bool.false_eq_true, if_false]
            refine ih [['.', '.']] start.tail (by simp) ?_ h
            simp [FS.walk, hd]
        | cons a acc' =>
          by_cases h3 : a = ['.', '.']
          · simp only [h3, if_true]
            subst h3
            refine ih _ loc.tail ?_ ?_ h
            · intro x hx
              rcases List.mem_cons.1 hx with rfl | hx
              · simp
              · exact hacc x hx
            · rw [List.reverse_cons, walk_append, hw]
              simp [FS.walk, hd]
          · simp only [h3, if_false]
            have ha := hacc a (by simp)
            rw [List.reverse_cons, walk_append] at hw
            cases h0 : fs.walk start acc'.reverse with
            | none => simp [h0] at hw
            | some l0 =>
              simp only [h0, Option.some_bind] at hw
              have hd0 := walk_cons_dir fs l0 loc a [] hw
              simp only [FS.walk, hd0, if_true, ha.1, ha.2, or_self, if_false, h3,
                Option.some.injEq] at hw
              subst hw
              exact ih acc' l0 (fun x hx => hacc x (by simp [hx])) h0 h
      · simp only [h2, if_false] at h ⊢
        refine ih (e :: acc) (e :: loc) ?_ ?_ h
        · intro x hx
          rcases List.mem_cons.1 hx with rfl | hx
          · exact ⟨fun hh => h1 (Or.inl hh), fun hh => h1 (Or.inr hh)⟩
          · exact hacc x hx
        · rw [List.reverse_cons, walk_append, hw]
          simp [FS.walk, hd, h1, h2]

theorem cleanElems_elems (rooted : Bool) (es acc : List (List Char))
    (hacc : ∀ a ∈ acc, a ≠ [] ∧ '/' ∉ a) (hes : ∀ e ∈ es, '/' ∉ e) :
    ∀ x ∈ cleanElems rooted acc es, x ≠ [] ∧ '/' ∉ x := by
  induction es generalizing acc with
  | nil => simpa [cleanElems] using hacc
  | cons e es ih =>
    have hes' : ∀ x ∈ es, '/' ∉ x := fun x hx => hes x (by simp [hx])
    have he := hes e (by simp)
    simp only [cleanElems]
    split
    · exact ih acc hacc hes'
    · rename_i h1
      have hpush : ∀ x ∈ e :: acc, x ≠ [] ∧ '/' ∉ x := by
        intro x hx
        rcases List.mem_cons.1 hx with rfl | hx
        · exact ⟨fun hh => h1 (Or.inl hh), he⟩
        · exact hacc x hx
      split
      · cases acc with
        | nil =>
          simp only
          split
          · exact ih [] (by simp) hes'
          · exact ih _ hpush hes'
        | cons a acc' =>
          simp only
          split
          · exact ih _ hpush hes'
          · exact ih acc' (fun x hx => hacc x (by simp [hx])) hes'
      · exact ih _ hpush hes'

theorem cleanElems_append_plain_ne_nil (rooted : Bool) (es acc : List (List Char))
    (p : List Char) (hp : plainElem p) : cleanElems rooted acc (es ++ [p]) ≠ [] := by
  induction es generalizing acc with
  | nil => simp [cleanElems, hp.1, hp.2.2.1, hp.2.2.2]
  | cons e es ih =>
    simp only [List.cons_append, cleanElems]
    split
    · exact ih acc
    · split
      · cases acc with
        | nil =>
          simp only
          split
          · exact ih []
          · exact ih _
        | cons a acc' =>
          simp only
          split
          · exact ih _
          · exact ih acc'
      · exact ih _

theorem joinSlash_head (comps : List (List Char)) (hne : comps ≠ [])
    (h : ∀ x ∈ comps, x ≠ [] ∧ '/' ∉ x) :
    ∃ c cs, joinSlash comps = c :: cs ∧ c ≠ '/' := by
  cases comps with
  | nil => exact absurd rfl hne
  | cons first rest =>
    obtain ⟨h1, h2⟩ := h first (by simp)
    cases first with
    | nil => exact absurd rfl h1
    | cons c cs =>
      have hc : c ≠ '/' := fun hh => h2 (by simp [hh])
      cases rest with
      | nil => exact ⟨c, cs, rfl, hc⟩
      | cons a as => exact ⟨c, _, rfl, hc⟩

/-- What `path.Join(fname, "script")` names when `fname` names the directory at
`loc`: the entry `script` of that directory, if there is one. -/
theorem locate_Join_script (fs : FS) (fname : String) (loc : List (List Char))
    (hl : fs.locate fname = some loc) (hd : fs.kind loc = some .dir) :
    fs.locate (Join [fname, "script"]) =
      if fs.kind ("script".data :: loc) = none then none else some ("script".data :: loc) := by
  obtain ⟨data⟩ := fname
  cases data with
  | nil => simp [FS.locate] at hl
  | cons c cs =>
    have hne : (String.mk (c :: cs)) ≠ "" := by
      intro h
      have := congrArg String.data h
      simp at this
    rw [Join_nonempty_head _ _ hne]
    simp only [FS.locate] at hl
    cases hw : fs.walk (if c = '/' then [] else fs.cwd) (splitSlash (c :: cs)) with
    | none => simp [hw] at hl
    | some l0 =>
      have hl0 : l0 = loc := by
        simp only [hw] at hl
        by_cases hk : fs.kind l0 = none
        · simp [hk] at hl
        · simpa [hk] using hl
      subst hl0
      have hp : plainElem "script".data := by decide
      have hsplit : splitSlash ((c :: cs) ++ '/' :: "script".data) =
          splitSlash (c :: cs) ++ ["script".data] := by
        rw [splitSlash_append_slash, splitSlash_single _ hp.2.1]
      have hwalk : fs.walk (if c = '/' then [] else fs.cwd)
          (splitSlash (c :: cs) ++ ["script".data]) = some ("script".data :: l0) := by
        rw [walk_append, hw]
        simp [FS.walk, hd]
      have hclean := walk_cleanElems fs (decide (c = '/')) (if c = '/' then [] else fs.cwd)
        (by intro h; simp at h; simp [h]) _ [] _ _ (by simp) (by simp [FS.walk]) hwalk
      have hcne := cleanElems_append_plain_ne_nil (decide (c = '/')) (splitSlash (c :: cs)) []
        _ hp
      have helems := cleanElems_elems (decide (c = '/'))
        (splitSlash (c :: cs) ++ ["script".data]) [] (by simp)
        (by
          intro e he
          rcases List.mem_append.1 he with he | he
          · exact splitSlash_noSlash _ e he
          · simp at he
            subst he
            exact hp.2.1)
      have hjoin : joinSlash ([String.mk (c :: cs), "script"].map String.data) =
          (c :: cs) ++ '/' :: "script".data := rfl
      rw [hjoin]
      generalize hcomps : cleanElems (decide (c = '/')) []
        (splitSlash (c :: cs) ++ ["script".data]) = comps at hclean hcne helems
      have hns : ∀ x ∈ comps, '/' ∉ x := fun x hx => (helems x hx).2
      obtain ⟨j, js, hj, hjc⟩ := joinSlash_head comps hcne helems
      have hCleanEq : Clean (String.mk ((c :: cs) ++ '/' :: "script".data)) =
          String.mk ((if c = '/' then ['/'] else []) ++ joinSlash comps) := by
        have hdata : (String.mk ((c :: cs) ++ '/' :: "script".data)).data =
            c :: (cs ++ '/' :: "script".data) := rfl
        unfold Clean
        rw [hdata]
        simp only
        rw [show c :: (cs ++ '/' :: "script".data) = (c :: cs) ++ '/' :: "script".data from rfl,
          hsplit, hcomps, hj]
        by_cases hc : c = '/' <;> simp [hc]
      rw [hCleanEq]
      by_cases hc : c = '/'
      · subst hc
        simp only [if_true, List.singleton_append] at hclean ⊢
        have hk0 : fs.kind [] = some .dir := by
          cases comps with
          | nil => exact absurd rfl hcne
          | cons x xs => exact walk_cons_dir fs [] _ x xs hclean
        simp only [FS.locate, if_true, splitSlash, splitSlash_joinSlash comps hcne hns, FS.walk,
          hk0, true_or, hclean]
      · simp only [hc, if_false, List.nil_append] at hclean ⊢
        have hsj := splitSlash_joinSlash comps hcne hns
        rw [hj] at hsj ⊢
        simp only [FS.locate, hjc, if_false, hsj, hclean]

/-! ## The outcome of a task against the transport -/

theorem stop_keeps_ret (env : Transport) (r : Outcome GoError) (s2 s' : St) (err : GoError)
    (h : (match StopMaster env s2 with
      | (.panic v, s3) => (.panic v, s3)
      | (.ret _, s3) => (r, s3)) = (.ret err, s')) : r = .ret err := by
  cases ht : StopMaster env s2 with
  | mk rt s3 =>
    simp only [ht] at h
    rcases rt with e | v
    · simp only [Prod.mk.injEq] at h
      exact h.1
    · simp at h

theorem deploy_ret_iff (env : Transport) (job : Job) (script : Script) (host : Host)
    (pre : List Event) (err : GoError) (s2 : St) (hs : job.Script = some script)
    (h : deploy env job ⟨host, pre⟩ = (.ret err, s2)) :
    err = none ↔ stepsSucceed env job script host pre = true := by
  unfold deploy at h
  unfold stepsSucceed
  simp only [emit] at h
  cases hmk : env.Ssh pre host job "mkdir -p $HOME/.judo" with
  | panic v => simp [hmk] at h
  | ret em =>
    simp only [hmk] at h ⊢
    cases hmt : env.SshRead (pre ++ [⟨43, host, .Ssh "mkdir -p $HOME/.judo" (.ret em)⟩]) host job
        "TMPDIR=$HOME/.judo mktemp -d" with
    | panic v => simp [hmt] at h
    | ret rt =>
      obtain ⟨t, merr⟩ := rt
      cases merr with
      | some e =>
        simp only [hmt, Prod.mk.injEq, Outcome.ret.injEq] at h ⊢
        simp [← h.1]
      | none =>
        simp only [hmt] at h ⊢
        unfold pushRunCleanup at h
        simp only [hs, emit] at h
        cases hpu : env.pushFiles
            (pre ++ [⟨43, host, .Ssh "mkdir -p $HOME/.judo" (.ret em)⟩] ++
              [⟨44, host, .SshRead "TMPDIR=$HOME/.judo mktemp -d" (.ret (t, none))⟩])
            { host with tmpdir := t } job script.fname t with
        | panic v =>
          simp only [hpu] at h
          obtain ⟨rc, v', hrc⟩ := recoverCleanup_panic env job t v
            ⟨{ host with tmpdir := t },
              pre ++ [⟨43, host, .Ssh "mkdir -p $HOME/.judo" (.ret em)⟩] ++
                [⟨44, host, .SshRead "TMPDIR=$HOME/.judo mktemp -d" (.ret (t, none))⟩] ++
                [⟨66, { host with tmpdir := t }, .pushFiles script.fname t (.panic v)⟩]⟩
          have h3 := hrc.symm.trans h
          simp at h3
        | ret ep =>
          simp only [hpu, remote_command_eq] at h ⊢
          generalize (pre ++ [⟨43, host, .Ssh "mkdir -p $HOME/.judo" (.ret em)⟩] ++
            [⟨44, host, .SshRead "TMPDIR=$HOME/.judo mktemp -d" (.ret (t, none))⟩] ++
            [⟨66, { host with tmpdir := t }, .pushFiles script.fname t (.ret ep)⟩]) = pre4 at h ⊢
          generalize (if script.dirmode = true then Join [t, Base script.fname, "script"]
            else Join [t, Base script.fname]) = entry at h ⊢
          cases hrj : env.Ssh pre4 { host with tmpdir := t } job entry with
          | panic v =>
            simp only [hrj] at h
            obtain ⟨rc, v', hrc⟩ := recoverCleanup_panic env job t v
              ⟨{ host with tmpdir := t },
                pre4 ++ [⟨81, { host with tmpdir := t }, .Ssh entry (.panic v)⟩]⟩
            have h3 := hrc.symm.trans h
            simp at h3
          | ret ej =>
            simp only [hrj, cleanup, emit] at h ⊢
            cases hrc : env.Ssh (pre4 ++ [⟨81, { host with tmpdir := t }, .Ssh entry (.ret ej)⟩])
                { host with tmpdir := "" } job ("rm -r " ++ t) with
            | panic v =>
              simp only [hrc] at h
              obtain ⟨rc, v', hrc'⟩ := recoverCleanup_panic env job t v
                ⟨{ host with tmpdir := "" },
                  pre4 ++ [⟨81, { host with tmpdir := t }, .Ssh entry (.ret ej)⟩] ++
                    [⟨52, { host with tmpdir := "" }, .Ssh ("rm -r " ++ t) (.panic v)⟩]⟩
              have h3 := hrc'.symm.trans h
              simp at h3
            | ret ec =>
              simp only [hrc, recoverCleanup] at h
              rcases ej with _ | ej <;> rcases ec with _ | ec <;>
              · simp only [recoverCleanup, Prod.mk.injEq, Outcome.ret.injEq] at h
                simp [← h.1, hrc]

theorem SendRemoteAndRun_ret_iff (env : Transport) (job : Job) (script : Script) (host : Host)
    (err : GoError) (s' : St) (hs : job.Script = some script)
    (h : SendRemoteAndRun env job ⟨host, []⟩ = (.ret err, s')) :
    err = none ↔ deploymentSucceeds env job script host = true := by
  unfold SendRemoteAndRun StartMaster at h
  unfold deploymentSucceeds
  cases hm : host.master with
  | some p => simp [hm] at h
  | none =>
    simp only [hm, emit] at h
    cases hnp : env.NewProc [] ["ssh", "-MN", host.Name] with
    | panic v => simp [hnp] at h
    | ret reply =>
      obtain ⟨p, merr⟩ := reply
      cases merr with
      | none =>
        simp only [hnp, List.nil_append] at h ⊢
        cases hd : deploy env job
            ⟨{ host with master := some p },
              [⟨106, host, .NewProc ["ssh", "-MN", host.Name] (.ret (p, none))⟩]⟩ with
        | mk rd s2 =>
          simp only [hd] at h
          have hr := stop_keeps_ret env rd s2 s' err h
          subst hr
          exact deploy_ret_iff env job script _ _ err s2 hs hd
      | some e =>
        simp only [hnp, List.nil_append] at h ⊢
        cases hd : deploy env job
            ⟨host, [⟨106, host, .NewProc ["ssh", "-MN", host.Name] (.ret (p, some e))⟩]⟩ with
        | mk rd s2 =>
          simp only [hd] at h
          have hr := stop_keeps_ret env rd s2 s' err h
          subst hr
          exact deploy_ret_iff env job script _ _ err s2 hs hd

theorem hostTask_ret_iff (env : Transport) (job : Job) (host : Host) (err : GoError) (s' : St)
    (h : hostTask env job host = (.ret err, s')) :
    (err = none ↔ remoteSucceeds env job host = true) ∧
    (job.Script = none → ∀ command, job.Command = some command →
      env.Ssh [] host job command.cmd = .ret err) := by
  unfold hostTask at h
  unfold remoteSucceeds
  cases hs : job.Script with
  | some script =>
    simp only [hs] at h ⊢
    exact ⟨SendRemoteAndRun_ret_iff env job script host err s' hs h, fun hh => by cases hh⟩
  | none =>
    simp only [hs] at h ⊢
    cases hc : job.Command with
    | none => simp [hc] at h
    | some c =>
      simp only [hc, RunRemote, emit, Prod.mk.injEq] at h ⊢
      refine ⟨?_, fun _ command hcmd => ?_⟩
      · rw [h.1]
        simp
      · cases hcmd
        exact h.1

/-! ## Removal of the temporary directory (C1) -/

/-- C1 (amended): in every invocation of `SendRemoteAndRun` in which the temporary
directory was created, every removal issued is `rm -r <tmpdir>`, and it is issued
once or twice before the invocation ends, however it ends; it is issued twice
exactly when the run step returned and the first removal itself faulted. -/
theorem removal_once_or_twice (env : Transport) (job : Job) (host : Host) (tmpdir : String)
    (hc : created (SendRemoteAndRun env job ⟨host, []⟩).2.trace tmpdir) :
    (∀ e ∈ removals (SendRemoteAndRun env job ⟨host, []⟩).2.trace,
      ∃ rc, e.call = .Ssh ("rm -r " ++ tmpdir) rc) ∧
    ((removals (SendRemoteAndRun env job ⟨host, []⟩).2.trace).length = 1 ∨
      (removals (SendRemoteAndRun env job ⟨host, []⟩).2.trace).length = 2) ∧
    ((removals (SendRemoteAndRun env job ⟨host, []⟩).2.trace).length = 2 ↔
      (∃ e ∈ (SendRemoteAndRun env job ⟨host, []⟩).2.trace,
        e.line = 81 ∧ e.call.faulted = false) ∧
      ∃ e, (removals (SendRemoteAndRun env job ⟨host, []⟩).2.trace).head? = some e ∧
        e.call.faulted = true) := by
  cases hrun : SendRemoteAndRun env job ⟨host, []⟩ with
  | mk r s' =>
    rw [hrun] at hc
    simp only
    rcases SendRemoteAndRun_shape env job host r s' hrun with
      ⟨_, rfl, _⟩ | ⟨_, v, rfl, _⟩ | ⟨_, p, e, h1, evs, rd, stop, _, htr, hsh, hstop, _, _, _⟩
    · simp [created] at hc
    · simp [created] at hc
    · have h52 := stop_filter stop _ 52 (by decide) hstop
      have hc' : created evs tmpdir := by
        obtain ⟨ev, hev, hl, hcall⟩ := hc
        rw [htr] at hev
        rcases List.mem_cons.1 hev with rfl | hev
        · simp at hl
        · rcases List.mem_append.1 hev with hev | hev
          · exact ⟨ev, hev, hl, hcall⟩
          · have := (hstop ev hev).1
            omega
      simp only [removals, htr, List.filter_cons, List.filter_append, h52]
      rcases hsh with ⟨v, rfl, _, _⟩ | ⟨em, v, rfl, _, _⟩ | ⟨em, t, err, rfl, _, _⟩ |
        ⟨em, t, body, rfl, _, hb⟩
      · simp [created] at hc'
      · simp [created] at hc'
      · simp [created] at hc'
      · rcases hb with ⟨_, rc, rfl, _⟩ | ⟨script, _, ⟨v, rc, rfl, _⟩ | ⟨ep, v, rc, rfl, _⟩ |
          ⟨ep, ej, v, rc, rfl, _⟩ | ⟨ep, ej, ec, rfl, _⟩⟩ <;>
        · simp [created] at hc'
          subst hc'
          simp [Call.faulted, h52]
          try (intro ev hev; have := (hstop ev hev).1; omega)

/-- C1, witness of `removal_once_or_twice`: on a transport where every step works
the directory is created and the removal is issued once or twice. -/
theorem removal_once_or_twice_witness :
    created (SendRemoteAndRun okTransport helloJob ⟨NewHost 1 "a", []⟩).2.trace
      "/home/u/.judo/tmp.Ab12" ∧
    ((removals (SendRemoteAndRun okTransport helloJob ⟨NewHost 1 "a", []⟩).2.trace).length = 1 ∨
      (removals (SendRemoteAndRun okTransport helloJob ⟨NewHost 1 "a", []⟩).2.trace).length = 2) :=
  ⟨by decide,
    (removal_once_or_twice okTransport helloJob (NewHost 1 "a") "/home/u/.judo/tmp.Ab12"
      (by decide)).2.1⟩

/-- C1, counterexample to "exactly one removal in every invocation in which the
directory was created": the directory is created, the upload and the run
succeed, the removal of line 84 faults, and the deferred function issues the
removal a second time; the invocation ends in the fault. -/
theorem removal_issued_twice :
    created (SendRemoteAndRun faultyRemovalTransport helloJob ⟨NewHost 1 "a", []⟩).2.trace
      "/home/u/.judo/tmp.Ab12" ∧
    (∃ e ∈ (SendRemoteAndRun faultyRemovalTransport helloJob ⟨NewHost 1 "a", []⟩).2.trace,
      e.line = 81 ∧ e.call = .Ssh "/home/u/.judo/tmp.Ab12/hello.sh" (.ret none)) ∧
    (removals (SendRemoteAndRun faultyRemovalTransport helloJob ⟨NewHost 1 "a", []⟩).2.trace).map
        (fun e => e.call) =
      [.Ssh "rm -r /home/u/.judo/tmp.Ab12" (.panic "connection lost"),
       .Ssh "rm -r /home/u/.judo/tmp.Ab12" (.panic "connection lost")] ∧
    (SendRemoteAndRun faultyRemovalTransport helloJob ⟨NewHost 1 "a", []⟩).1 =
      .panic "connection lost" := by
  decide

/-! ## The result of a job (C2) -/

theorem collect_ret (tasks : List (Outcome GoError × St)) (result : JobResult)
    (h : collect tasks = .ret result) :
    List.Forall₂ (fun task entry => task.1 = .ret entry.2 ∧ entry.1 = task.2.host)
      tasks result := by
  induction tasks generalizing result with
  | nil =>
    simp only [collect, Outcome.ret.injEq] at h
    subst h
    exact List.Forall₂.nil
  | cons task rest ih =>
    obtain ⟨r, s⟩ := task
    cases r with
    | panic v => simp [collect] at h
    | ret err =>
      simp only [collect] at h
      cases hc : collect rest with
      | panic v => simp [hc] at h
      | ret res =>
        simp only [hc, Outcome.ret.injEq] at h
        subst h
        exact List.Forall₂.cons ⟨rfl, rfl⟩ (ih res hc)

theorem collect_total (tasks : List (Outcome GoError × St)) :
    (∀ task ∈ tasks, task.1.returned = true) ↔ ∃ result, collect tasks = .ret result := by
  induction tasks with
  | nil => simp [collect]
  | cons task rest ih =>
    obtain ⟨r, s⟩ := task
    cases r with
    | panic v => simp [collect, Outcome.returned]
    | ret err =>
      have hhead : (∀ task ∈ (Outcome.ret err, s) :: rest, task.1.returned = true) ↔
          ∀ task ∈ rest, task.1.returned = true := by
        simp [Outcome.returned]
      rw [hhead, ih]
      constructor
      · rintro ⟨res, hres⟩
        exact ⟨(s.host, err) :: res, by simp only [collect, hres]⟩
      · rintro ⟨res, hres⟩
        cases hc : collect rest with
        | panic v => simp [collect, hc] at hres
        | ret res' => exact ⟨res', rfl⟩

theorem stop_no_line (stop : List Event) (h' : Host) (n : Nat)
    (hn : n ≠ 139 ∧ n ≠ 140 ∧ n ≠ 143)
    (h : ∀ ev ∈ stop, (ev.line = 139 ∨ ev.line = 140 ∨ ev.line = 143) ∧ ev.host = h') :
    ¬ ∃ e ∈ stop, e.line = n ∧ e.call.succeeded = true := by
  rintro ⟨e, he, hl, _⟩
  have := (h e he).1
  omega

theorem hostTask_ret (env : Transport) (job : Job) (host : Host) (err : GoError) (s' : St)
    (h : hostTask env job host = (.ret err, s')) :
    s'.host.addr = host.addr ∧ s'.host.Name = host.Name ∧
    (err = none ↔ commandSucceeded job s'.trace) := by
  unfold hostTask at h
  cases hs : job.Script with
  | none =>
    simp only [hs] at h
    cases hcmd : job.Command with
    | none => simp [hcmd] at h
    | some c =>
      simp only [hcmd, RunRemote, emit] at h
      generalize env.Ssh [] host job c.cmd = r at h
      cases h
      refine ⟨rfl, rfl, ?_⟩
      simp only [commandSucceeded, hs]
      rcases err with _ | e <;> simp [Call.succeeded]
  | some script =>
    simp only [hs] at h
    simp only [commandSucceeded, hs]
    rcases SendRemoteAndRun_shape env job host (.ret err) s' h with
      ⟨_, _, hr⟩ | ⟨_, v, _, hr⟩ | ⟨_, p, e, h1, evs, rd, stop, hh1, htr, hsh, hstop, hr, _, _⟩
    · cases hr
    · cases hr
    · obtain ⟨_, haddr, hname, _⟩ := deployShape_after h1 job evs rd s'.host hsh
      have h1a : h1.addr = host.addr ∧ h1.Name = host.Name := by
        rcases hh1 with ⟨_, rfl⟩ | ⟨_, rfl⟩ <;> exact ⟨rfl, rfl⟩
      refine ⟨haddr.trans h1a.1, hname.trans h1a.2, ?_⟩
      have hrd : rd = .ret err := by
        rcases hr with hr | ⟨v, hr⟩
        · exact hr.symm
        · cases hr
      subst hrd
      have n81 := stop_no_line stop _ 81 (by decide) hstop
      have n52 := stop_no_line stop _ 52 (by decide) hstop
      rw [htr]
      rcases hsh with ⟨v, rfl, hv, _⟩ | ⟨em, v, rfl, hv, _⟩ | ⟨em, t, e', rfl, hv, _⟩ |
        ⟨em, t, body, rfl, _, hb⟩
      · cases hv
      · cases hv
      · cases hv
        simp [n81]
      · rcases hb with ⟨_, rc, rfl, v', hv⟩ | ⟨script', _, ⟨v, rc, rfl, v', hv⟩ |
          ⟨ep, v, rc, rfl, v', hv⟩ | ⟨ep, ej, v, rc, rfl, v', hv⟩ | ⟨ep, ej, ec, rfl, hv⟩⟩
        · cases hv
        · cases hv
        · cases hv
        · cases hv
        · cases hv
          have l81 : ∀ ev ∈ stop, ev.line ≠ 81 := fun ev hev => by
            have := (hstop ev hev).1
            omega
          have l52 : ∀ ev ∈ stop, ev.line ≠ 52 := fun ev hev => by
            have := (hstop ev hev).1
            omega
          rcases ej with _ | ej <;> rcases ec with _ | ec <;>
          · simp [Call.succeeded]
            try (intro x hx hl
                 first
                   | exact absurd hl (l81 x hx)
                   | exact absurd hl (l52 x hx))

/-- C2: `Execute` returns a JobResult exactly when no host task panics; and the
JobResult it returns has one entry per targeted host and no other, keyed by that
host, whose value is nil if and only if, according to the transport, the host's
remote command exited successfully and, for a script, the removal of the
temporary directory succeeded too.  For a command the value is the transport's
reply to that command; and in the record of the task the value is nil if and
only if the calls of the run and of the removal returned without an error. -/
theorem Execute_result (env : Transport) (job : Job) :
    ((∀ host ∈ job.Inventory.GetHosts, (hostTask env job host).1.returned = true) ↔
      ∃ result, Execute env job = .ret result) ∧
    ∀ result, Execute env job = .ret result →
      (result.map (fun entry => entry.1.addr)).Nodup ∧
      result.map (fun entry => entry.1.addr) =
        job.Inventory.GetHosts.map (fun host => host.addr) ∧
      List.Forall₂
        (fun host entry =>
          entry.1.addr = host.addr ∧ entry.1.Name = host.Name ∧
          (entry.2 = none ↔ remoteSucceeds env job host = true) ∧
          (job.Script = none → ∀ command, job.Command = some command →
            env.Ssh [] host job command.cmd = .ret entry.2) ∧
          (entry.2 = none ↔ commandSucceeded job (hostTask env job host).2.trace))
        job.Inventory.GetHosts result := by
  constructor
  · unfold Execute
    rw [← collect_total]
    simp
  · intro result h
    have hf := collect_ret _ result h
    rw [List.forall₂_map_left_iff] at hf
    have hf2 : List.Forall₂
        (fun host entry =>
          entry.1.addr = host.addr ∧ entry.1.Name = host.Name ∧
          (entry.2 = none ↔ remoteSucceeds env job host = true) ∧
          (job.Script = none → ∀ command, job.Command = some command →
            env.Ssh [] host job command.cmd = .ret entry.2) ∧
          (entry.2 = none ↔ commandSucceeded job (hostTask env job host).2.trace))
        job.Inventory.GetHosts result := by
      refine hf.imp ?_
      intro host entry hte
      obtain ⟨h1, h2⟩ := hte
      have hret : hostTask env job host = (.ret entry.2, (hostTask env job host).2) := by
        rw [← h1]
      have ha := hostTask_ret env job host entry.2 (hostTask env job host).2 hret
      have hb := hostTask_ret_iff env job host entry.2 (hostTask env job host).2 hret
      rw [h2]
      exact ⟨ha.1, ha.2.1, hb.1, hb.2, ha.2.2⟩
    have hf3 : List.Forall₂ (fun a b => a = b) (result.map (fun entry => entry.1.addr))
        (job.Inventory.GetHosts.map (fun host => host.addr)) := by
      rw [List.forall₂_map_left_iff, List.forall₂_map_right_iff]
      exact hf2.flip.imp (fun _ _ hh => hh.1)
    have heq : result.map (fun entry => entry.1.addr) =
        job.Inventory.GetHosts.map (fun host => host.addr) := List.forall₂_eq_eq_eq ▸ hf3
    exact ⟨heq ▸ job.Inventory.distinct, heq, hf2⟩

/-- C2, witness of `Execute_result`: the command `true` on the hosts `a` and `b`,
on a transport where every step works, returns the JobResult in which both
hosts have nil, and each of these values is nil as the transport's reply says. -/
theorem Execute_result_witness :
    (∃ result, Execute okTransport trueJob = .ret result) ∧
    Execute okTransport trueJob = .ret bothNil ∧
    List.Forall₂
      (fun host entry => entry.2 = none ↔ remoteSucceeds okTransport trueJob host = true)
      trueJob.Inventory.GetHosts bothNil :=
  ⟨(Execute_result okTransport trueJob).1.1 (by decide), by decide,
    (((Execute_result okTransport trueJob).2 bothNil (by decide)).2.2).imp
      (fun _ _ hh => hh.2.2.1)⟩

/-! ## The value returned by `SendRemoteAndRun` (C3) -/

/-- C3: in an invocation of `SendRemoteAndRun` in which the temporary directory was
created, the invocation returns when the job has a script and no call faults;
and whenever it returns, the run step and the removal were each issued once and
returned, and the value returned is the error of the removal if that is non-nil
and the outcome of the run otherwise. -/
theorem returns_cleanup_error_else_run_outcome (env : Transport) (job : Job) (host : Host)
    (tmpdir : String)
    (hc : created (SendRemoteAndRun env job ⟨host, []⟩).2.trace tmpdir) :
    (job.Script ≠ none →
      (∀ e ∈ (SendRemoteAndRun env job ⟨host, []⟩).2.trace, e.call.faulted = false) →
      ∃ err, (SendRemoteAndRun env job ⟨host, []⟩).1 = .ret err) ∧
    ∀ err, (SendRemoteAndRun env job ⟨host, []⟩).1 = .ret err →
      ∃ hr hc command err_job err_rm,
        (SendRemoteAndRun env job ⟨host, []⟩).2.trace.filter (fun e => e.line = 81) =
          [⟨81, hr, .Ssh command (.ret err_job)⟩] ∧
        removals (SendRemoteAndRun env job ⟨host, []⟩).2.trace =
          [⟨52, hc, .Ssh ("rm -r " ++ tmpdir) (.ret err_rm)⟩] ∧
        err = (match err_rm with
          | some e => some e
          | none => err_job) := by
  cases hrun : SendRemoteAndRun env job ⟨host, []⟩ with
  | mk r s' =>
    rw [hrun] at hc
    simp only
    rcases SendRemoteAndRun_shape env job host r s' hrun with
      ⟨_, rfl, _⟩ | ⟨_, v, rfl, _⟩ | ⟨_, p, e, h1, evs, rd, stop, _, htr, hsh, hstop, hr, hnf, _⟩
    · simp [created] at hc
    · simp [created] at hc
    · have h52 := stop_filter stop _ 52 (by decide) hstop
      have h81 := stop_filter stop _ 81 (by decide) hstop
      have hc' : created evs tmpdir := by
        obtain ⟨ev, hev, hl, hcall⟩ := hc
        rw [htr] at hev
        rcases List.mem_cons.1 hev with rfl | hev
        · simp at hl
        · rcases List.mem_append.1 hev with hev | hev
          · exact ⟨ev, hev, hl, hcall⟩
          · have := (hstop ev hev).1
            omega
      simp only [removals, htr, List.filter_cons, List.filter_append, h52, h81]
      rcases hsh with ⟨v, rfl, _, _⟩ | ⟨em, v, rfl, _, _⟩ | ⟨em, t, err, rfl, _, _⟩ |
        ⟨em, t, body, rfl, _, hb⟩
      · simp [created] at hc'
      · simp [created] at hc'
      · simp [created] at hc'
      · rcases hb with ⟨hs, rc, rfl, v', rfl⟩ | ⟨script, hs, ⟨v, rc, rfl, v', rfl⟩ |
          ⟨ep, v, rc, rfl, v', rfl⟩ | ⟨ep, ej, v, rc, rfl, v', rfl⟩ | ⟨ep, ej, ec, rfl, rfl⟩⟩
        · refine ⟨fun hne => absurd hs hne, ?_⟩
          intro err herr
          rcases hr with rfl | ⟨v, rfl⟩ <;> cases herr
        · refine ⟨fun _ hall => ?_, ?_⟩
          · have := hall ⟨66, h1.withTmpdir t, .pushFiles script.fname t (.panic v)⟩ (by simp)
            simp [Call.faulted] at this
          · intro err herr
            rcases hr with rfl | ⟨v, rfl⟩ <;> cases herr
        · refine ⟨fun _ hall => ?_, ?_⟩
          · have := hall ⟨81, h1.withTmpdir t, .Ssh (remote_command script t) (.panic v)⟩ (by simp)
            simp [Call.faulted] at this
          · intro err herr
            rcases hr with rfl | ⟨v, rfl⟩ <;> cases herr
        · refine ⟨fun _ hall => ?_, ?_⟩
          · have := hall ⟨52, h1.withTmpdir "", .Ssh ("rm -r " ++ t) (.panic v)⟩ (by simp)
            simp [Call.faulted] at this
          · intro err herr
            rcases hr with rfl | ⟨v, rfl⟩ <;> cases herr
        · simp [created] at hc'
          subst hc'
          refine ⟨fun _ hall => ⟨_, hnf (fun ev hev => hall ev (by simp [hev]))⟩, ?_⟩
          intro err herr
          rcases hr with rfl | ⟨v, rfl⟩
          · cases herr
            exact ⟨h1.withTmpdir t, h1.withTmpdir "", remote_command script t, ej, ec,
              by simp, by simp, rfl⟩
          · cases herr

/-- C3, witness of `returns_cleanup_error_else_run_outcome`: on a transport where
every step works the directory is created and the invocation returns. -/
theorem returns_cleanup_error_else_run_outcome_witness :
    created (SendRemoteAndRun okTransport helloJob ⟨NewHost 1 "a", []⟩).2.trace
      "/home/u/.judo/tmp.Ab12" ∧
    ∃ err, (SendRemoteAndRun okTransport helloJob ⟨NewHost 1 "a", []⟩).1 = .ret err :=
  ⟨by decide,
    (returns_cleanup_error_else_run_outcome okTransport helloJob (NewHost 1 "a")
      "/home/u/.judo/tmp.Ab12" (by decide)).1 (by decide) (by decide)⟩

/-! ## Failures that are surfaced (C4) -/

/-- C4 (amended): if creating the temporary directory returns an error, or the
entry point is executed and returns an error, then `SendRemoteAndRun` never
returns nil, and it returns a non-nil error whenever no call faults. -/
theorem mktemp_or_run_failure_surfaces (env : Transport) (job : Job) (host : Host)
    (hf : mktempFailed (SendRemoteAndRun env job ⟨host, []⟩).2.trace ∨
      runFailed (SendRemoteAndRun env job ⟨host, []⟩).2.trace) :
    (SendRemoteAndRun env job ⟨host, []⟩).1 ≠ .ret none ∧
    ((∀ e ∈ (SendRemoteAndRun env job ⟨host, []⟩).2.trace, e.call.faulted = false) →
      ∃ err, (SendRemoteAndRun env job ⟨host, []⟩).1 = .ret (some err)) := by
  cases hrun : SendRemoteAndRun env job ⟨host, []⟩ with
  | mk r s' =>
    rw [hrun] at hf
    simp only
    rcases SendRemoteAndRun_shape env job host r s' hrun with
      ⟨_, rfl, _⟩ | ⟨_, v, rfl, _⟩ | ⟨_, p, e, h1, evs, rd, stop, _, htr, hsh, hstop, hr, hnf, _⟩
    · simp [mktempFailed, runFailed, Call.failed] at hf
    · simp [mktempFailed, runFailed, Call.failed] at hf
    · have hf' : mktempFailed evs ∨ runFailed evs := by
        rcases hf with ⟨ev, hev, hl, hcall⟩ | ⟨ev, hev, hl, hcall⟩
        · rw [htr] at hev
          rcases List.mem_cons.1 hev with rfl | hev
          · simp at hl
          · rcases List.mem_append.1 hev with hev | hev
            · exact Or.inl ⟨ev, hev, hl, hcall⟩
            · have := (hstop ev hev).1
              omega
        · rw [htr] at hev
          rcases List.mem_cons.1 hev with rfl | hev
          · simp at hl
          · rcases List.mem_append.1 hev with hev | hev
            · exact Or.inr ⟨ev, hev, hl, hcall⟩
            · have := (hstop ev hev).1
              omega
      simp only [htr]
      rcases hsh with ⟨v, rfl, _, _⟩ | ⟨em, v, rfl, _, _⟩ | ⟨em, t, err, rfl, rfl, _⟩ |
        ⟨em, t, body, rfl, _, hb⟩
      · simp [mktempFailed, runFailed, Call.failed] at hf'
      · simp [mktempFailed, runFailed, Call.failed] at hf'
      · refine ⟨?_, fun hall => ⟨err, hnf (fun ev hev => hall ev (by simp [hev]))⟩⟩
        rcases hr with rfl | ⟨v, rfl⟩ <;> simp
      · rcases hb with ⟨hs, rc, rfl, v', rfl⟩ | ⟨script, hs, ⟨v, rc, rfl, v', rfl⟩ |
          ⟨ep, v, rc, rfl, v', rfl⟩ | ⟨ep, ej, v, rc, rfl, v', rfl⟩ | ⟨ep, ej, ec, rfl, rfl⟩⟩
        · simp [mktempFailed, runFailed, Call.failed] at hf'
        · simp [mktempFailed, runFailed, Call.failed] at hf'
        · simp [mktempFailed, runFailed, Call.failed] at hf'
        · refine ⟨?_, fun hall => ?_⟩
          · rcases hr with rfl | ⟨v, rfl⟩ <;> simp
          · have := hall ⟨52, h1.withTmpdir "", .Ssh ("rm -r " ++ t) (.panic v)⟩ (by simp)
            simp [Call.faulted] at this
        · have hej : ∃ x, ej = some x := by
              cases ej with
              | none => simp [mktempFailed, runFailed, Call.failed] at hf'
              | some x => exact ⟨x, rfl⟩
          obtain ⟨x, rfl⟩ := hej
          have hres : ∃ y, (match ec with
              | some err => some err
              | none => some x) = some y := by
            cases ec <;> simp
          obtain ⟨y, hy⟩ := hres
          rw [hy] at hr hnf
          refine ⟨?_, fun hall => ⟨y, hnf (fun ev hev => hall ev (by simp [hev]))⟩⟩
          rcases hr with rfl | ⟨v, rfl⟩ <;> simp

/-- C4, witness of `mktemp_or_run_failure_surfaces`: the entry point exits with a
failure, nothing faults, and the invocation returns a non-nil error. -/
theorem mktemp_or_run_failure_surfaces_witness :
    runFailed (SendRemoteAndRun failingRunTransport helloJob ⟨NewHost 1 "a", []⟩).2.trace ∧
    ∃ err, (SendRemoteAndRun failingRunTransport helloJob ⟨NewHost 1 "a", []⟩).1 =
      .ret (some err) :=
  ⟨by decide,
    (mktemp_or_run_failure_surfaces failingRunTransport helloJob (NewHost 1 "a")
      (Or.inr (by decide))).2 (by decide)⟩

/-- C4, counterexample to "a failure of any transport step is returned": when the
control connection cannot be opened (`StartMaster` returns an error) and the
other steps work, `SendRemoteAndRun` returns nil; likewise when
`mkdir -p $HOME/.judo` returns an error and the other steps work. -/
theorem connection_or_mkdir_failure_not_surfaced :
    ((∃ e ∈ (SendRemoteAndRun noMasterTransport helloJob ⟨NewHost 1 "a", []⟩).2.trace,
        e.line = 106 ∧ e.call.failed = true) ∧
      (SendRemoteAndRun noMasterTransport helloJob ⟨NewHost 1 "a", []⟩).1 = .ret none) ∧
    ((∃ e ∈ (SendRemoteAndRun noMkdirTransport helloJob ⟨NewHost 1 "a", []⟩).2.trace,
        e.line = 43 ∧ e.call.failed = true) ∧
      (SendRemoteAndRun noMkdirTransport helloJob ⟨NewHost 1 "a", []⟩).1 = .ret none) := by
  decide

/-! ## Counting outcomes (C5) -/

theorem mapSet_mem_keys (m : List (String × String)) (k v k' : String) :
    k' ∈ (mapSet m k v).map Prod.fst ↔ k' = k ∨ k' ∈ m.map Prod.fst := by
  induction m with
  | nil => simp [mapSet]
  | cons a m ih =>
    obtain ⟨ka, va⟩ := a
    unfold mapSet
    split
    · rename_i h
      subst h
      simp
    · simp only [List.map_cons, List.mem_cons, ih]
      tauto

theorem mapSet_nodup (m : List (String × String)) (k v : String)
    (h : (m.map Prod.fst).Nodup) : ((mapSet m k v).map Prod.fst).Nodup := by
  induction m with
  | nil => simp [mapSet]
  | cons a m ih =>
    obtain ⟨ka, va⟩ := a
    simp only [List.map_cons, List.nodup_cons] at h
    unfold mapSet
    split
    · rename_i hk
      subst hk
      simpa using h
    · rename_i hk
      simp only [List.map_cons, List.nodup_cons, mapSet_mem_keys]
      exact ⟨fun hh => hh.elim hk h.1, ih h.2⟩

theorem partition_fold (result : JobResult) (success : List String)
    (failed : List (String × String)) (hnd : (failed.map Prod.fst).Nodup) :
    ((result.foldl
        (fun acc entry =>
          match entry.2 with
          | none => (acc.1 ++ [entry.1.Name], acc.2)
          | some err => (acc.1, mapSet acc.2 entry.1.Name err))
        (success, failed)).1.length =
      success.length + result.countP (fun entry => entry.2 = none)) ∧
    ((result.foldl
        (fun acc entry =>
          match entry.2 with
          | none => (acc.1 ++ [entry.1.Name], acc.2)
          | some err => (acc.1, mapSet acc.2 entry.1.Name err))
        (success, failed)).2.map Prod.fst).Nodup ∧
    ∀ k, k ∈ (result.foldl
        (fun acc entry =>
          match entry.2 with
          | none => (acc.1 ++ [entry.1.Name], acc.2)
          | some err => (acc.1, mapSet acc.2 entry.1.Name err))
        (success, failed)).2.map Prod.fst ↔
      k ∈ failed.map Prod.fst ∨ k ∈ failedNames result := by
  induction result generalizing success failed with
  | nil => simp [failedNames, hnd]
  | cons entry rest ih =>
    obtain ⟨host, err⟩ := entry
    cases err with
    | none =>
      obtain ⟨h1, h2, h3⟩ := ih (success ++ [host.Name]) failed hnd
      simp only [List.foldl_cons]
      refine ⟨?_, h2, ?_⟩
      · rw [h1]
        simp [List.countP_cons]
        omega
      · intro k
        rw [h3 k]
        simp [failedNames]
    | some e =>
      obtain ⟨h1, h2, h3⟩ := ih success (mapSet failed host.Name e) (mapSet_nodup _ _ _ hnd)
      simp only [List.foldl_cons]
      refine ⟨?_, h2, ?_⟩
      · rw [h1]
        simp [List.countP_cons]
      · intro k
        rw [h3 k, mapSet_mem_keys]
        simp [failedNames]
        tauto

/-- The counts of `Report`, for every JobResult: the first is the number of hosts
whose outcome is nil, the second the number of distinct names among the hosts
whose outcome is a non-nil error; when those names are pairwise distinct the
second is the number of such hosts and the two add up to the number of
entries; for the outcomes a: nil, b: nil, c: error, d: error, e: nil they are
`(3, 2)`. -/
theorem Report_counts (result : JobResult) :
    (Report result).1 = result.countP (fun entry => entry.2 = none) ∧
    (Report result).2 = (failedNames result).dedup.length ∧
    ((failedNames result).Nodup →
      (Report result).2 = result.countP (fun entry => entry.2 ≠ none) ∧
      (Report result).1 + (Report result).2 = result.length) ∧
    Report [(NewHost 1 "a", none), (NewHost 2 "b", none), (NewHost 3 "c", some "exit status 1"),
      (NewHost 4 "d", some "exit status 1"), (NewHost 5 "e", none)] = (3, 2) := by
  obtain ⟨h1, h2, h3⟩ := partition_fold result [] [] (by simp)
  have hs : (Report result).1 = result.countP (fun entry => entry.2 = none) := by
    simpa [Report, partitionResult] using h1
  have hf : (Report result).2 = (failedNames result).dedup.length := by
    have hperm : List.Perm ((partitionResult result).2.map Prod.fst) (failedNames result).dedup := by
      have key := List.perm_ext_iff_of_nodup h2 (List.nodup_dedup (failedNames result))
      refine key.2 ?_
      intro k
      rw [List.mem_dedup]
      simpa using h3 k
    have := hperm.length_eq
    simpa [Report] using this
  refine ⟨hs, hf, ?_, by decide⟩
  intro hnd
  have hfl : (Report result).2 = result.countP (fun entry => entry.2 ≠ none) := by
    rw [hf, hnd.dedup]
    simp [failedNames, List.countP_eq_length_filter]
  refine ⟨hfl, ?_⟩
  rw [hs, hfl]
  have := List.length_eq_countP_add_countP (fun entry : Host × GoError => decide (entry.2 = none)) result
  rw [this]
  congr 1
  apply List.countP_congr
  intro x _
  simp

/-- C5 (defect of the code): two hosts with distinct keys and the same name both
fail, and `Report` returns `(0, 1)` for the two entries, where the claim has one
failure counted for each host and the two counts adding up to the number of
entries; when the same two hosts both succeed the other branch of the loop
counts each of them and `Report` returns `(2, 0)`. -/
theorem Report_same_name :
    (NewHost 1 "a").addr ≠ (NewHost 2 "a").addr ∧
    Report [(NewHost 1 "a", some "exit status 1"), (NewHost 2 "a", some "exit status 1")] =
      (0, 1) ∧
    [(NewHost 1 "a", (some "exit status 1" : GoError)),
      (NewHost 2 "a", some "exit status 1")].countP (fun entry => entry.2 ≠ none) = 2 ∧
    [(NewHost 1 "a", (some "exit status 1" : GoError)),
      (NewHost 2 "a", some "exit status 1")].length = 2 ∧
    Report [(NewHost 1 "a", none), (NewHost 2 "a", none)] = (2, 0) := by
  decide

/-! ## Construction of scripts and jobs (C7, C6) -/

/-- C7 (amended): for every path and every local filesystem, `NewScript` gives a
script that is not in directory mode for a plain existing file, a script in
directory mode for an existing directory that has an entry named `script` (a
file or a directory), an error and no script for an existing directory that has
no entry named `script`, and an error and no script for a path that names
nothing. -/
theorem NewScript_cases (fs : FS) (fname : String) :
    (∀ loc, fs.locate fname = some loc → fs.kind loc = some .file →
      ∃ script, NewScript fs.Stat fname = (some script, none) ∧
        script.fname = fname ∧ script.IsDirMode = false) ∧
    (∀ loc, fs.locate fname = some loc → fs.kind loc = some .dir →
      fs.kind ("script".data :: loc) ≠ none →
      ∃ script, NewScript fs.Stat fname = (some script, none) ∧
        script.fname = fname ∧ script.IsDirMode = true) ∧
    (∀ loc, fs.locate fname = some loc → fs.kind loc = some .dir →
      fs.kind ("script".data :: loc) = none →
      ∃ err, NewScript fs.Stat fname = (none, some err)) ∧
    (fs.locate fname = none → ∃ err, NewScript fs.Stat fname = (none, some err)) := by
  refine ⟨?_, ?_, ?_, ?_⟩
  · intro loc hl hk
    exact ⟨⟨fname, false⟩, by simp [NewScript, FS.Stat, hl, hk], rfl, rfl⟩
  · intro loc hl hk hs
    have h2 := locate_Join_script fs fname loc hl hk
    rw [if_neg hs] at h2
    exact ⟨⟨fname, true⟩, by simp [NewScript, FS.Stat, hl, hk, h2], rfl, rfl⟩
  · intro loc hl hk hs
    have h2 := locate_Join_script fs fname loc hl hk
    rw [if_pos hs] at h2
    exact ⟨"stat " ++ Join [fname, "script"] ++ ": no such file or directory",
      by simp [NewScript, FS.Stat, hl, hk, h2]⟩
  · intro hl
    exact ⟨"stat " ++ fname ++ ": no such file or directory", by simp [NewScript, FS.Stat, hl]⟩

/-- C7, witness of `NewScript_cases` on the filesystem of the tests: `examples/hello.sh`
is a plain file, `examples/bootstrap` a directory with `script`, `examples/empty`
a directory without it, and `examples/notfound.sh` does not exist. -/
theorem NewScript_cases_witness :
    (∃ script, NewScript exampleFS.Stat "examples/hello.sh" = (some script, none) ∧
      script.fname = "examples/hello.sh" ∧ script.IsDirMode = false) ∧
    (∃ script, NewScript exampleFS.Stat "examples/bootstrap" = (some script, none) ∧
      script.fname = "examples/bootstrap" ∧ script.IsDirMode = true) ∧
    (∃ err, NewScript exampleFS.Stat "examples/empty" = (none, some err)) ∧
    (∃ err, NewScript exampleFS.Stat "examples/notfound.sh" = (none, some err)) :=
  ⟨(NewScript_cases exampleFS "examples/hello.sh").1
      ["hello.sh".data, "examples".data, "judo".data, "me".data, "home".data]
      (by decide) (by decide),
    (NewScript_cases exampleFS "examples/bootstrap").2.1
      ["bootstrap".data, "examples".data, "judo".data, "me".data, "home".data]
      (by decide) (by decide) (by decide),
    (NewScript_cases exampleFS "examples/empty").2.2.1
      ["empty".data, "examples".data, "judo".data, "me".data, "home".data]
      (by decide) (by decide) (by decide),
    (NewScript_cases exampleFS "examples/notfound.sh").2.2.2 (by decide)⟩

/-- C7, counterexample to "an existing directory lacking an entry-point file named
`script` yields an error and no Script": in `examples/bootstrap` the entry `script`
is a directory, so the directory has no entry-point file of that name, and
`NewScript` returns a script in directory mode and no error. -/
theorem NewScript_script_is_directory :
    scriptDirFS.locate "examples/bootstrap" =
      some ["bootstrap".data, "examples".data, "judo".data, "me".data, "home".data] ∧
    scriptDirFS.kind ["bootstrap".data, "examples".data, "judo".data, "me".data, "home".data] =
      some .dir ∧
    scriptDirFS.kind
        ["script".data, "bootstrap".data, "examples".data, "judo".data, "me".data, "home".data] ≠
      some .file ∧
    NewScript scriptDirFS.Stat "examples/bootstrap" =
      (some ⟨"examples/bootstrap", true⟩, none) := by
  decide

/-- C6 (amended): `NewJob` checks nothing: the job carries exactly the script and
the command it was given.  A task of `Execute` deploys the script when there is
one (also when there is a command as well), runs the command when there is only
a command, and reaches `Should not happen` when there is neither. -/
theorem NewJob_keeps_arguments (inventory : Inventory) (script : Option Script)
    (command : Option Command) :
    (NewJob inventory script command).Script = script ∧
    (NewJob inventory script command).Command = command ∧
    (NewJob inventory script command).Inventory = inventory ∧
    (∀ env host, script ≠ none →
      hostTask env (NewJob inventory script command) host =
        SendRemoteAndRun env (NewJob inventory script command) ⟨host, []⟩) ∧
    (∀ env host, script = none → command ≠ none →
      hostTask env (NewJob inventory script command) host =
        RunRemote env (NewJob inventory script command) ⟨host, []⟩) ∧
    (∀ env host, script = none → command = none →
      hostTask env (NewJob inventory script command) host =
        (.panic "Should not happen", ⟨host, []⟩)) := by
  refine ⟨rfl, rfl, rfl, ?_, ?_, ?_⟩
  · intro env host h
    cases script with
    | none => exact absurd rfl h
    | some s => rfl
  · intro env host h hc
    subst h
    cases command with
    | none => exact absurd rfl hc
    | some c => rfl
  · intro env host h hc
    subst h
    subst hc
    rfl

/-- C6, witness of `NewJob_keeps_arguments`: the job made from the script
`examples/hello.sh` alone deploys it, and the job made from nothing reaches
`Should not happen`. -/
theorem NewJob_keeps_arguments_witness :
    hostTask okTransport (NewJob noHosts (some ⟨"examples/hello.sh", false⟩) none) (NewHost 1 "a") =
      SendRemoteAndRun okTransport (NewJob noHosts (some ⟨"examples/hello.sh", false⟩) none)
        ⟨NewHost 1 "a", []⟩ ∧
    hostTask okTransport (NewJob noHosts none (some (NewCommand "true"))) (NewHost 1 "a") =
      RunRemote okTransport (NewJob noHosts none (some (NewCommand "true"))) ⟨NewHost 1 "a", []⟩ ∧
    hostTask okTransport (NewJob noHosts none none) (NewHost 1 "a") =
      (.panic "Should not happen", ⟨NewHost 1 "a", []⟩) :=
  ⟨(NewJob_keeps_arguments noHosts (some ⟨"examples/hello.sh", false⟩) none).2.2.2.1 _ _ (by decide),
    (NewJob_keeps_arguments noHosts none (some (NewCommand "true"))).2.2.2.2.1 _ _ rfl (by decide),
    (NewJob_keeps_arguments noHosts none none).2.2.2.2.2 _ _ rfl rfl⟩

/-- C6, counterexample to "every job made by `NewJob` has exactly one payload":
`NewJob` with no script and no command gives a job with neither, on which
`Execute` panics with `Should not happen` as soon as a host is targeted; and
`NewJob` with both gives a job with both. -/
theorem NewJob_neither_or_both :
    ((NewJob hostA none none).Script = none ∧
      (NewJob hostA none none).Command = none ∧
      Execute okTransport (NewJob hostA none none) = .panic "Should not happen") ∧
    ((NewJob hostA (some ⟨"examples/hello.sh", false⟩)
        (some (NewCommand "true"))).Script ≠ none ∧
      (NewJob hostA (some ⟨"examples/hello.sh", false⟩)
        (some (NewCommand "true"))).Command ≠ none) := by
  decide

/-! ## The entry point that is executed (C8) -/

/-- C8 (amended): in an invocation of `SendRemoteAndRun` for a script, with `tmpdir` the
temporary directory that was created, every command executed at the run step is
`path.Join(tmpdir, name)` for a single file and `path.Join(tmpdir, name, "script")`
in directory mode, where `name` is `path.Base` of the local path; the run step is
issued exactly once when the upload does not fault; and when `tmpdir` is a clean
absolute path other than the root and `name` is an ordinary element, these are
the strings `<tmpdir>/<name>` and `<tmpdir>/<name>/script`. -/
theorem entry_point_command (env : Transport) (job : Job) (host : Host) (script : Script)
    (tmpdir : String) (hs : job.Script = some script)
    (hc : created (SendRemoteAndRun env job ⟨host, []⟩).2.trace tmpdir) :
    (∀ e ∈ (SendRemoteAndRun env job ⟨host, []⟩).2.trace, e.line = 81 →
      ∃ rj, e.call = .Ssh
        (if script.dirmode then Join [tmpdir, Base script.fname, "script"]
          else Join [tmpdir, Base script.fname]) rj) ∧
    ((∀ e ∈ (SendRemoteAndRun env job ⟨host, []⟩).2.trace, e.line = 66 →
        e.call.faulted = false) →
      ((SendRemoteAndRun env job ⟨host, []⟩).2.trace.filter (fun e => e.line = 81)).length = 1) ∧
    (Clean tmpdir = tmpdir → tmpdir.data.head? = some '/' → tmpdir ≠ "/" →
      Base script.fname ≠ "." → Base script.fname ≠ ".." → Base script.fname ≠ "/" →
      (if script.dirmode then Join [tmpdir, Base script.fname, "script"]
        else Join [tmpdir, Base script.fname]) =
      (if script.dirmode then tmpdir ++ "/" ++ Base script.fname ++ "/" ++ "script"
        else tmpdir ++ "/" ++ Base script.fname)) := by
  refine ⟨?_, ?_, ?_⟩
  rotate_left 2
  · intro ht hroot hne h1 h2 h3
    have hb := Base_plain script.fname h1 h2 h3
    split
    · exact Join_three_literal tmpdir _ _ ht hroot hne hb (by decide)
    · exact Join_two_literal tmpdir _ ht hroot hne hb
  all_goals
    cases hrun : SendRemoteAndRun env job ⟨host, []⟩ with
    | mk r s' =>
      rw [hrun] at hc
      simp only
      rcases SendRemoteAndRun_shape env job host r s' hrun with
        ⟨_, rfl, _⟩ | ⟨_, v, rfl, _⟩ | ⟨_, p, e, h1, evs, rd, stop, _, htr, hsh, hstop, _, _, _⟩
      · simp [created] at hc
      · simp [created] at hc
      · have h81 := stop_filter stop _ 81 (by decide) hstop
        have hc' : created evs tmpdir := by
          obtain ⟨ev, hev, hl, hcall⟩ := hc
          rw [htr] at hev
          rcases List.mem_cons.1 hev with rfl | hev
          · simp at hl
          · rcases List.mem_append.1 hev with hev | hev
            · exact ⟨ev, hev, hl, hcall⟩
            · have := (hstop ev hev).1
              omega
        have hstop81 : ∀ ev ∈ stop, ev.line ≠ 81 := by
          intro ev hev
          have := (hstop ev hev).1
          omega
        simp only [htr, List.filter_cons, List.filter_append, h81]
        rcases hsh with ⟨v, rfl, _, _⟩ | ⟨em, v, rfl, _, _⟩ | ⟨em, t, err, rfl, _, _⟩ |
          ⟨em, t, body, rfl, _, hb⟩
        · simp [created] at hc'
        · simp [created] at hc'
        · simp [created] at hc'
        · rcases hb with ⟨hs', rc, rfl, _⟩ | ⟨script', hs', hb⟩
          · rw [hs] at hs'
            cases hs'
          · rw [hs] at hs'
            cases hs'
            rcases hb with ⟨v, rc, rfl, _⟩ | ⟨ep, v, rc, rfl, _⟩ | ⟨ep, ej, v, rc, rfl, _⟩ |
              ⟨ep, ej, ec, rfl, _⟩ <;>
            · simp [created] at hc'
              subst hc'
              simp [remote_command_eq, Call.faulted]
              try (intro ev hev hl; exact absurd hl (hstop81 ev hev))

/-- C8, witness of `entry_point_command`: with the temporary directory
`/home/u/.judo/tmp.Ab12`, the file `examples/hello.sh` is run as
`/home/u/.judo/tmp.Ab12/hello.sh` and the directory `examples/bootstrap` as
`/home/u/.judo/tmp.Ab12/bootstrap/script`. -/
theorem entry_point_command_witness :
    (∀ e ∈ (SendRemoteAndRun okTransport helloJob ⟨NewHost 1 "a", []⟩).2.trace, e.line = 81 →
      ∃ rj, e.call = .Ssh "/home/u/.judo/tmp.Ab12/hello.sh" rj) ∧
    (∀ e ∈ (SendRemoteAndRun okTransport bootstrapJob ⟨NewHost 1 "a", []⟩).2.trace,
      e.line = 81 → ∃ rj, e.call = .Ssh "/home/u/.judo/tmp.Ab12/bootstrap/script" rj) ∧
    Join ["/home/u/.judo/tmp.Ab12", Base "examples/bootstrap", "script"] =
      "/home/u/.judo/tmp.Ab12" ++ "/" ++ Base "examples/bootstrap" ++ "/" ++ "script" :=
  ⟨(entry_point_command okTransport helloJob (NewHost 1 "a") ⟨"examples/hello.sh", false⟩
      "/home/u/.judo/tmp.Ab12" rfl (by decide)).1,
    (entry_point_command okTransport bootstrapJob (NewHost 1 "a") ⟨"examples/bootstrap", true⟩
      "/home/u/.judo/tmp.Ab12" rfl (by decide)).1,
    (entry_point_command okTransport bootstrapJob (NewHost 1 "a") ⟨"examples/bootstrap", true⟩
      "/home/u/.judo/tmp.Ab12" rfl (by decide)).2.2 (by decide) (by decide) (by decide)
      (by decide) (by decide) (by decide)⟩

/-- C8, counterexample to "for every script and every temporary directory the
command is the string `<tmp>/<name>` or `<tmp>/<name>/script`": for the directory
`..`, which `NewScript` accepts in directory mode, and the temporary directory
`/home/u/.judo/tmp.Ab12` the command executed is `/home/u/.judo/script`, not
`/home/u/.judo/tmp.Ab12/../script`; and for the file `examples/hello.sh` and an
empty temporary directory it is `hello.sh`, not `/hello.sh`. -/
theorem entry_point_not_literal :
    (NewScript parentFS.Stat ".." = (some ⟨"..", true⟩, none) ∧
      Base ".." = ".." ∧
      created (SendRemoteAndRun okTransport parentJob ⟨NewHost 1 "a", []⟩).2.trace
        "/home/u/.judo/tmp.Ab12" ∧
      (∃ e ∈ (SendRemoteAndRun okTransport parentJob ⟨NewHost 1 "a", []⟩).2.trace,
        e.line = 81 ∧ e.call = .Ssh "/home/u/.judo/script" (.ret none)) ∧
      "/home/u/.judo/script" ≠ "/home/u/.judo/tmp.Ab12" ++ "/" ++ Base ".." ++ "/" ++ "script") ∧
    (Base "examples/hello.sh" = "hello.sh" ∧
      created (SendRemoteAndRun emptyLineTransport helloJob ⟨NewHost 1 "a", []⟩).2.trace "" ∧
      (∃ e ∈ (SendRemoteAndRun emptyLineTransport helloJob ⟨NewHost 1 "a", []⟩).2.trace,
        e.line = 81 ∧ e.call = .Ssh "hello.sh" (.ret none)) ∧
      "hello.sh" ≠ "" ++ "/" ++ Base "examples/hello.sh") := by
  decide

/-! ## The recorded workspace path (C9) -/

/-- C9: a host returned by `NewHost` has an empty `tmpdir`; and for a host whose
`tmpdir` is empty before the call, `tmpdir` is empty when `SendRemoteAndRun`
ends, however it ends, and at every call made during the invocation it is empty,
except at the upload (line 66) and the run (line 81), where it is the temporary
directory that was created. -/
theorem tmpdir_empty_outside_deployment (env : Transport) (job : Job) (host : Host)
    (h : host.tmpdir = "") :
    (∀ addr name, (NewHost addr name).tmpdir = "") ∧
    (SendRemoteAndRun env job ⟨host, []⟩).2.host.tmpdir = "" ∧
    ∀ e ∈ (SendRemoteAndRun env job ⟨host, []⟩).2.trace,
      if e.line = 66 ∨ e.line = 81 then
        created (SendRemoteAndRun env job ⟨host, []⟩).2.trace e.host.tmpdir
      else e.host.tmpdir = "" := by
  refine ⟨fun _ _ => rfl, ?_⟩
  cases hrun : SendRemoteAndRun env job ⟨host, []⟩ with
  | mk r s' =>
    simp only
    rcases SendRemoteAndRun_shape env job host r s' hrun with
      ⟨_, rfl, _⟩ | ⟨_, v, rfl, _⟩ | ⟨_, p, e, h1, evs, rd, stop, hh1, htr, hsh, hstop, _, _, _⟩
    · simp [h]
    · simp [h]
    · have h1t : h1.tmpdir = "" := by
        rcases hh1 with ⟨_, rfl⟩ | ⟨_, rfl⟩
        · exact h
        · exact h
      have hfin : s'.host.tmpdir = "" := by
        rcases hsh with ⟨v, _, _, hh⟩ | ⟨em, v, _, _, hh⟩ | ⟨em, t, err, _, _, hh⟩ |
          ⟨em, t, body, _, hh, _⟩
        · rw [hh]; exact h1t
        · rw [hh]; exact h1t
        · rw [hh]; exact h1t
        · rw [hh]; rfl
      refine ⟨hfin, ?_⟩
      intro ev hev
      rw [htr] at hev
      rcases List.mem_cons.1 hev with rfl | hev
      · simp [h]
      rcases List.mem_append.1 hev with hev | hev
      · rcases hsh with ⟨v, rfl, _, _⟩ | ⟨em, v, rfl, _, _⟩ | ⟨em, t, err, rfl, _, _⟩ |
          ⟨em, t, body, rfl, _, hb⟩
        · simp at hev
          subst hev
          simp [h1t]
        · simp at hev
          rcases hev with rfl | rfl <;> simp [h1t]
        · simp at hev
          rcases hev with rfl | rfl <;> simp [h1t]
        · have hcr : created s'.trace t := by
            rw [htr]
            exact ⟨⟨44, h1, .SshRead "TMPDIR=$HOME/.judo mktemp -d" (.ret (t, none))⟩,
              by simp, rfl, rfl⟩
          simp only [List.mem_cons] at hev
          rcases hev with rfl | rfl | hev
          · simp [h1t]
          · simp [h1t]
          · rcases bodyShape_hosts _ _ job t body rd hb ev hev with ⟨hl, hh⟩ | ⟨hl, hh⟩
            · simp only [hl, if_true, hh]
              exact hcr
            · have hne : ¬ (ev.line = 66 ∨ ev.line = 81) := by omega
              simp only [hne, if_false, hh]
              rfl
      · have hl := hstop ev hev
        have hne : ¬ (ev.line = 66 ∨ ev.line = 81) := by omega
        simp only [hne, if_false]
        rw [hl.2]
        exact hfin

/-- C9, witness of `tmpdir_empty_outside_deployment`: a host made by `NewHost` has
an empty `tmpdir`, and it is empty again after a deployment on it. -/
theorem tmpdir_empty_outside_deployment_witness :
    (NewHost 1 "a").tmpdir = "" ∧
    (SendRemoteAndRun okTransport helloJob ⟨NewHost 1 "a", []⟩).2.host.tmpdir = "" :=
  ⟨rfl, (tmpdir_empty_outside_deployment okTransport helloJob (NewHost 1 "a") rfl).2.1⟩

/-! ## Stopping a control connection that is not there (C10) -/

/-- C10: on a host without a control connection `StopMaster` returns nil, leaves
the host as it is, and makes no call but the log line (it neither asks the
process whether it is alive nor signals it); and when `StartMaster` could not
open a connection in `SendRemoteAndRun`, the deferred `StopMaster` runs on such a
host: the invocation makes no `IsAlive` or `Signal` call, ends with that log
line, leaves the host without a connection, and ends the way lines 42-88 ended. -/
theorem StopMaster_without_master (env : Transport) (host : Host) (tr : List Event)
    (h : host.master = none) :
    StopMaster env ⟨host, tr⟩ =
      (.ret none, ⟨host, tr ++ [⟨140, host, .Println "there was no master to stop"⟩]⟩) ∧
    ∀ (job : Job) (p : Proc) (err : String),
      env.NewProc [] ["ssh", "-MN", host.Name] = .ret (p, some err) →
      (SendRemoteAndRun env job ⟨host, []⟩).2.host.master = none ∧
      (∀ ev ∈ (SendRemoteAndRun env job ⟨host, []⟩).2.trace, ev.line ≠ 139 ∧ ev.line ≠ 143) ∧
      (SendRemoteAndRun env job ⟨host, []⟩).2.trace.getLast? =
        some ⟨140, (SendRemoteAndRun env job ⟨host, []⟩).2.host,
          .Println "there was no master to stop"⟩ ∧
      (SendRemoteAndRun env job ⟨host, []⟩).1 =
        (deploy env job ⟨host, [⟨106, host,
          .NewProc ["ssh", "-MN", host.Name] (.ret (p, some err))⟩]⟩).1 := by
  refine ⟨by simp [StopMaster, h, emit], ?_⟩
  intro job p err hnp
  cases hd : deploy env job ⟨host, [⟨106, host,
      .NewProc ["ssh", "-MN", host.Name] (.ret (p, some err))⟩]⟩ with
  | mk rd s2 =>
    obtain ⟨evs, htr, hsh⟩ := deploy_shape env job _ rd s2 hd
    obtain ⟨hm, _, _, hlines⟩ := deployShape_after _ job evs rd s2.host hsh
    have hm2 : s2.host.master = none := by rw [hm]; exact h
    have hrun : SendRemoteAndRun env job ⟨host, []⟩ =
        (rd, ⟨s2.host, s2.trace ++ [⟨140, s2.host, .Println "there was no master to stop"⟩]⟩) := by
      simp [SendRemoteAndRun, StartMaster, h, hnp, emit, hd, StopMaster, hm2]
    rw [hrun]
    refine ⟨hm2, ?_, by simp, rfl⟩
    intro ev hev
    simp only [htr, List.mem_append, List.mem_singleton] at hev
    rcases hev with (rfl | hev) | rfl
    · simp
    · have := hlines ev hev
      omega
    · simp

/-- C10, witness of `StopMaster_without_master`: a fresh host has no control
connection, `StopMaster` on it returns nil and only logs, and a deployment
whose `StartMaster` fails leaves it without a connection. -/
theorem StopMaster_without_master_witness :
    (NewHost 1 "a").master = none ∧
    StopMaster noMasterTransport ⟨NewHost 1 "a", []⟩ =
      (.ret none,
        ⟨NewHost 1 "a", [⟨140, NewHost 1 "a", .Println "there was no master to stop"⟩]⟩) ∧
    (SendRemoteAndRun noMasterTransport helloJob ⟨NewHost 1 "a", []⟩).2.host.master = none :=
  ⟨rfl, (StopMaster_without_master noMasterTransport (NewHost 1 "a") [] rfl).1,
    ((StopMaster_without_master noMasterTransport (NewHost 1 "a") [] rfl).2 helloJob ⟨0⟩
      "ssh: connect to host a port 22: Connection refused" rfl).1⟩

end Judo
